import Mathlib

/-!
Scheduler boost arbitration (`kernel/sched/boost_pelt.c`).

A shallow embedding of the reference-counted boost table and of the
functions that mutate it, followed by the properties of the boost
protocol.

Modelling conventions.

* `sched_boosts[]` is a four-entry array of `struct sched_boost_data`.  The
  two function pointers of an entry never change, so the mutable part of the
  table is its `refcount` column, kept as a `List Int`.  Every array access
  goes through `tbl_get` / `tbl_set`, which fail (`none`) outside the bounds
  of the list: an out-of-bounds access in the C code makes the embedded
  function return `none`.
* Calling `sched_boosts[i].enter()` / `.exit()` is recorded as the event
  `Hook.enter i` / `Hook.exit i`; every function returns the events of the
  calls it made, in order.
* `refcount` is a C `int` of 32 bits.  The increment `sb->refcount++` of
  `sched_boost_enable` wraps (`int_wrap`): at `INT_MAX` it gives `INT_MIN`, as
  the kernel is built with wrapping signed arithmetic.  The decrement of
  `sched_boost_disable` runs only behind the guard `refcount <= 0`, on a
  positive count, and cannot overflow.  A counter grows by at most one per
  command, so no wrap happens in a run shorter than `2^31` commands
  (`bounded_run_invariant`).
* `boost_mutex` serialises the callers; a run is a list of commands.
* The hooks write state that lives outside the file (the energy-aware switch
  and the `boost_override` of the schedtune group "top-app").  That state is
  the record `Ext`; the hook bodies are functions on it, and `run_hooks`
  replays a trace on it.  The hooks never read the table and the table code
  never reads `Ext`, so replaying the trace gives the state the calls produce.
-/

namespace BoostPelt

/-! ## Constants declared in `sched.h` / `errno.h` -/

/-- Modelled from the spec: the macro `NO_BOOST` of `sched.h` (not part of the
sources at hand), the baseline mode, index 0 of the table. -/
def NO_BOOST : Int := 0

/-- Modelled from the spec: the macro `FULL_THROTTLE_BOOST` of `sched.h`, the
elevated mode of highest priority, index 1. -/
def FULL_THROTTLE_BOOST : Int := 1

/-- Modelled from the spec: the macro `CONSERVATIVE_BOOST` of `sched.h`, the
elevated mode of second priority, index 2. -/
def CONSERVATIVE_BOOST : Int := 2

/-- Modelled from the spec: the macro `RESTRAINED_BOOST` of `sched.h`, the
elevated mode of lowest priority, index 3 (`K = 3`). -/
def RESTRAINED_BOOST : Int := 3

/-- Modelled from the spec: the macro `RESTRAINED_BOOST_DISABLE` of `sched.h`,
the release command of the last elevated mode, `-3`. -/
def RESTRAINED_BOOST_DISABLE : Int := -3

/-- Modelled from the spec: the errno constant `EINVAL` (the `InvalidMode`
error is returned as `-EINVAL`); its value 22 comes from `errno-base.h`. -/
def EINVAL : Int := 22

/-- Largest value of a C `int` (32 bits). -/
def INT_MAX : Int := 2147483647

/-- Smallest value of a C `int` (32 bits). -/
def INT_MIN : Int := -2147483648

/-- The value of an arithmetic result `x` once stored in a C `int`: reduced
modulo `2^32` into `INT_MIN .. INT_MAX`. -/
def int_wrap (x : Int) : Int := (x + 2147483648) % 4294967296 - 2147483648

/-- The macro `SCHED_BOOST_START`, defined as `FULL_THROTTLE_BOOST`. -/
def SCHED_BOOST_START : Int := FULL_THROTTLE_BOOST

/-- The macro `SCHED_BOOST_END`, defined as `(RESTRAINED_BOOST + 1)`. -/
def SCHED_BOOST_END : Int := RESTRAINED_BOOST + 1

/-! ## State -/

/-- One invocation of a function pointer of the table: `sched_boosts[i].enter()`
or `sched_boosts[i].exit()`. -/
inductive Hook where
  | enter (i : Int)
  | exit (i : Int)
  deriving DecidableEq, Repr

/-- The globals of the file: the `refcount` column of `sched_boosts[]`,
`sched_boost_val` and `sysctl_sched_boost`. -/
structure State where
  sched_boosts : List Int
  sched_boost_val : Int
  sysctl_sched_boost : Int
  deriving DecidableEq, Repr

/-- The static initialisers: four entries with `.refcount = 0`, and the two
zero-initialised globals. -/
def init : State := ⟨[0, 0, 0, 0], 0, 0⟩

/-- Read `sched_boosts[i].refcount`; `none` when `i` is outside the array. -/
def tbl_get (t : List Int) (i : Int) : Option Int :=
  if 0 ≤ i then t.get? i.toNat else none

/-- Write `sched_boosts[i].refcount = v`; `none` when `i` is outside the array. -/
def tbl_set (t : List Int) (i : Int) (v : Int) : Option (List Int) :=
  if 0 ≤ i ∧ i.toNat < t.length then some (t.set i.toNat v) else none

/-! ## The functions of `boost_pelt.c` -/

/-- The function `verify_boost_params`: `type >= RESTRAINED_BOOST_DISABLE && type <= RESTRAINED_BOOST`. -/
def verify_boost_params (type : Int) : Bool :=
  decide (type ≥ RESTRAINED_BOOST_DISABLE) && decide (type ≤ RESTRAINED_BOOST)

/-- The `for` loop of `sched_effective_boost`, with `n` iterations left and
loop variable `i`: return the first `i` with `refcount >= 1`, and `NO_BOOST`
when the loop runs out. -/
def sched_effective_boost_loop (t : List Int) : Nat → Int → Option Int
  | 0, _ => some NO_BOOST
  | n + 1, i =>
    match tbl_get t i with
    | none => none
    | some rc => if rc ≥ 1 then some i else sched_effective_boost_loop t n (i + 1)

/-- The function `sched_effective_boost`: scan `i = SCHED_BOOST_START .. SCHED_BOOST_END - 1`. -/
def sched_effective_boost (t : List Int) : Option Int :=
  sched_effective_boost_loop t (SCHED_BOOST_END - SCHED_BOOST_START).toNat SCHED_BOOST_START

/-- The function `sched_boost_disable(type)`: a release of `type`. -/
def sched_boost_disable (type : Int) (s : State) : Option (State × List Hook) :=
  match tbl_get s.sched_boosts type with
  | none => none
  | some rc =>
    if rc ≤ 0 then some (s, [])
    else
      match tbl_set s.sched_boosts type (rc - 1) with
      | none => none
      | some t1 =>
        if rc - 1 ≠ 0 then some ({ s with sched_boosts := t1 }, [])
        else
          match sched_effective_boost t1 with
          | none => none
          | some next_boost =>
            match tbl_get t1 next_boost with
            | none => none
            | some _ =>
              some ({ s with sched_boosts := t1 }, [Hook.exit type, Hook.enter next_boost])

/-- The function `sched_boost_enable(type)`: a request of `type`. The
increment `sb->refcount++` is stored in an `int` and wraps. -/
def sched_boost_enable (type : Int) (s : State) : Option (State × List Hook) :=
  let prev_boost := s.sched_boost_val
  match tbl_get s.sched_boosts type with
  | none => none
  | some rc =>
    match tbl_set s.sched_boosts type (int_wrap (rc + 1)) with
    | none => none
    | some t1 =>
      if int_wrap (rc + 1) ≠ 1 then some ({ s with sched_boosts := t1 }, [])
      else
        match sched_effective_boost t1 with
        | none => none
        | some next_boost =>
          if next_boost = prev_boost then some ({ s with sched_boosts := t1 }, [])
          else
            match tbl_get t1 prev_boost, tbl_get t1 next_boost with
            | some _, some _ =>
              some ({ s with sched_boosts := t1 }, [Hook.exit prev_boost, Hook.enter next_boost])
            | _, _ => none

/-- The `for` loop of `sched_boost_disable_all`, with `n` iterations left and
loop variable `i`. -/
def sched_boost_disable_all_loop : Nat → Int → List Int → Option (List Int × List Hook)
  | 0, _, t => some (t, [])
  | n + 1, i, t =>
    match tbl_get t i with
    | none => none
    | some rc =>
      if rc > 0 then
        match tbl_set t i 0 with
        | none => none
        | some t1 =>
          match sched_boost_disable_all_loop n (i + 1) t1 with
          | none => none
          | some (t2, tr) => some (t2, Hook.exit i :: tr)
      else sched_boost_disable_all_loop n (i + 1) t

/-- The function `sched_boost_disable_all`: the reset. -/
def sched_boost_disable_all (s : State) : Option (State × List Hook) :=
  match sched_boost_disable_all_loop (SCHED_BOOST_END - SCHED_BOOST_START).toNat
      SCHED_BOOST_START s.sched_boosts with
  | none => none
  | some (t, tr) => some ({ s with sched_boosts := t }, tr)

/-- The function `_sched_set_boost(type)`: dispatch on the sign of `type`, then
publish the effective boost to `sched_boost_val` and `sysctl_sched_boost`. -/
def _sched_set_boost (type : Int) (s : State) : Option (State × List Hook) :=
  match (if type = 0 then sched_boost_disable_all s
         else if type > 0 then sched_boost_enable type s
         else sched_boost_disable (-type) s) with
  | none => none
  | some (s1, tr) =>
    match sched_effective_boost s1.sched_boosts with
    | none => none
    | some v => some ({ s1 with sched_boost_val := v, sysctl_sched_boost := v }, tr)

/-- The function `sched_set_boost(type)`: the return value, the state after the call and
the hooks the call invoked. -/
def sched_set_boost (type : Int) (s : State) : Option (Int × State × List Hook) :=
  if verify_boost_params type then
    match _sched_set_boost type s with
    | none => none
    | some (s1, tr) => some (0, s1, tr)
  else some (-EINVAL, s, [])

/-- A run: the commands are passed to `sched_set_boost` one after the other
(return values are dropped); the result is the final state and the hooks of
all the calls in order. -/
def run : List Int → State → Option (State × List Hook)
  | [], s => some (s, [])
  | c :: cs, s =>
    match sched_set_boost c s with
    | none => none
    | some (_, s1, tr) =>
      match run cs s1 with
      | none => none
      | some (s2, tr2) => some (s2, tr ++ tr2)


/-! ## Specification-level notions -/

/-- The states a run of commands can produce from the initial state. -/
def Reachable (s : State) : Prop := ∃ cmds tr, run cmds init = some (s, tr)

/-- The priority scan written out on the three elevated refcounts. -/
def pick (a b c : Int) : Int :=
  if a ≥ 1 then 1 else if b ≥ 1 then 2 else if c ≥ 1 then 3 else 0

/-- Shape of every reachable state: four refcounts, the baseline one 0 and the
elevated ones within the range of an `int`, and both published values equal to
the scan. -/
def Inv (s : State) : Prop :=
  ∃ a b c : Int, (INT_MIN ≤ a ∧ a ≤ INT_MAX) ∧ (INT_MIN ≤ b ∧ b ≤ INT_MAX) ∧
    (INT_MIN ≤ c ∧ c ≤ INT_MAX) ∧ s = ⟨[0, a, b, c], pick a b c, pick a b c⟩

/-- Shape of every state reached by at most `n` commands, for `n` within the
range of an `int`: as `Inv`, with every elevated refcount between 0 and `n`. -/
def Bounded (n : Int) (s : State) : Prop :=
  ∃ a b c : Int, (0 ≤ a ∧ a ≤ n) ∧ (0 ≤ b ∧ b ≤ n) ∧ (0 ≤ c ∧ c ≤ n) ∧
    s = ⟨[0, a, b, c], pick a b c, pick a b c⟩

/-- The table `t` has `v` as its scan result: `v` is the elevated mode of
lowest index (highest priority) whose refcount is at least 1, or `v` is the
baseline and no elevated mode has a refcount of at least 1. -/
def IsFirstActive (t : List Int) (v : Int) : Prop :=
  (v = NO_BOOST ∧
      ∀ i, FULL_THROTTLE_BOOST ≤ i → i ≤ RESTRAINED_BOOST → ∃ r, tbl_get t i = some r ∧ r < 1) ∨
  (FULL_THROTTLE_BOOST ≤ v ∧ v ≤ RESTRAINED_BOOST ∧ (∃ r, tbl_get t v = some r ∧ 1 ≤ r) ∧
      ∀ j, FULL_THROTTLE_BOOST ≤ j → j < v → ∃ r, tbl_get t j = some r ∧ r < 1)

/-- The table `t` marks `v` as the mode that must be effective: `v` is the
elevated mode of lowest index (highest priority) whose refcount is at least 1,
or `v` is the baseline and every elevated refcount is 0. -/
def IsHighestActive (t : List Int) (v : Int) : Prop :=
  (v = NO_BOOST ∧
      ∀ i, FULL_THROTTLE_BOOST ≤ i → i ≤ RESTRAINED_BOOST → tbl_get t i = some 0) ∨
  (FULL_THROTTLE_BOOST ≤ v ∧ v ≤ RESTRAINED_BOOST ∧ (∃ r, tbl_get t v = some r ∧ 1 ≤ r) ∧
      ∀ j, FULL_THROTTLE_BOOST ≤ j → j < v → ∃ r, tbl_get t j = some r ∧ r < 1)

/-- Whether the table `t` holds an outstanding request of mode `i`:
`sched_boosts[i].refcount > 0`. -/
def requested (t : List Int) (i : Int) : Bool :=
  match tbl_get t i with
  | some rc => decide (0 < rc)
  | none => false

/-- Priority rank of a mode: baseline below restrained below conservative below
full throttle (modes of lower index win the scan). -/
def priority (m : Int) : Nat :=
  if m = FULL_THROTTLE_BOOST then 3
  else if m = CONSERVATIVE_BOOST then 2
  else if m = RESTRAINED_BOOST then 1
  else 0

/-! ## The state the hooks act on -/

/-- The state outside the file that the hooks write: the energy-aware
placement switch, and the `boost_override` field of the schedtune group
"top-app" (`none` when `schedtune_get` finds no such group). -/
structure Ext where
  energy_aware_disabled : Bool
  top_app : Option Int
  deriving DecidableEq, Repr

/-- Initial outside state: energy-aware placement on, the group "top-app"
present with `boost_override = 0`. -/
def ext_init : Ext := ⟨false, some 0⟩

/-- Modelled from the spec: the function `disable_energy_aware` is defined
outside the sources at hand; it is the energy-aware placement toggle, modelled
as storing its argument in the flag `energy_aware_disabled`. -/
def disable_energy_aware (disable : Bool) (e : Ext) : Ext :=
  { e with energy_aware_disabled := disable }

/-- Modelled from the spec: the function `schedtune_get` is defined outside the
sources at hand; the hooks call it with the one name "top-app", and it returns
that group, or NULL (`none`) when there is no such group. The group is
represented by its `boost_override` field. -/
def schedtune_get (e : Ext) : Option Int := e.top_app

/-- The function `sched_no_boost_nop`: empty body. -/
def sched_no_boost_nop (e : Ext) : Ext := e

/-- The function `sched_full_throttle_boost_enter`: `disable_energy_aware(true)`. -/
def sched_full_throttle_boost_enter (e : Ext) : Ext := disable_energy_aware true e

/-- The function `sched_full_throttle_boost_exit`: `disable_energy_aware(false)`. -/
def sched_full_throttle_boost_exit (e : Ext) : Ext := disable_energy_aware false e

/-- The function `sched_conservative_boost_enter`: return when the group is
missing, else `st->boost_override = 1`. -/
def sched_conservative_boost_enter (e : Ext) : Ext :=
  match schedtune_get e with
  | none => e
  | some _ => { e with top_app := some 1 }

/-- The function `sched_conservative_boost_exit`: return when the group is
missing, else `st->boost_override = 0`. -/
def sched_conservative_boost_exit (e : Ext) : Ext :=
  match schedtune_get e with
  | none => e
  | some _ => { e with top_app := some 0 }

/-- The function `sched_restrained_boost_enter`: return when the group is
missing, else `st->boost_override = 30`. -/
def sched_restrained_boost_enter (e : Ext) : Ext :=
  match schedtune_get e with
  | none => e
  | some _ => { e with top_app := some 30 }

/-- The function `sched_restrained_boost_exit`: return when the group is
missing, else `st->boost_override = 0`. -/
def sched_restrained_boost_exit (e : Ext) : Ext :=
  match schedtune_get e with
  | none => e
  | some _ => { e with top_app := some 0 }

/-- The function pointers of the initialiser of `sched_boosts[]`: the effect of
the call `sched_boosts[i].enter()` or `sched_boosts[i].exit()`; `none` when `i`
is not an index of the table. -/
def call_hook (h : Hook) (e : Ext) : Option Ext :=
  match h with
  | Hook.enter i =>
    if i = NO_BOOST then some (sched_no_boost_nop e)
    else if i = FULL_THROTTLE_BOOST then some (sched_full_throttle_boost_enter e)
    else if i = CONSERVATIVE_BOOST then some (sched_conservative_boost_enter e)
    else if i = RESTRAINED_BOOST then some (sched_restrained_boost_enter e)
    else none
  | Hook.exit i =>
    if i = NO_BOOST then some (sched_no_boost_nop e)
    else if i = FULL_THROTTLE_BOOST then some (sched_full_throttle_boost_exit e)
    else if i = CONSERVATIVE_BOOST then some (sched_conservative_boost_exit e)
    else if i = RESTRAINED_BOOST then some (sched_restrained_boost_exit e)
    else none

/-- The hook calls of a trace applied in order to the outside state. -/
def run_hooks : List Hook → Ext → Option Ext
  | [], e => some e
  | h :: hs, e =>
    match call_hook h e with
    | none => none
    | some e1 => run_hooks hs e1

/-- The outside state that matches effective mode `v`: energy-aware placement
disabled exactly for full throttle; `boost_override` 1 for conservative, 30 for
restrained and 0 otherwise. -/
def ext_of (v : Int) : Ext :=
  ⟨decide (v = FULL_THROTTLE_BOOST),
    some (if v = CONSERVATIVE_BOOST then 1 else if v = RESTRAINED_BOOST then 30 else 0)⟩

/-- The table index a hook call goes through. -/
def hook_index : Hook → Int
  | Hook.enter i => i
  | Hook.exit i => i

/-! ## Evaluation lemmas -/

/-- On a four-entry table the scan of `sched_effective_boost` stays in bounds
and returns `pick` of the three elevated refcounts. -/
theorem eff_four (r0 a b c : Int) :
    sched_effective_boost [r0, a, b, c] = some (pick a b c) := by
  simp only [sched_effective_boost, SCHED_BOOST_END, SCHED_BOOST_START, RESTRAINED_BOOST,
    FULL_THROTTLE_BOOST, NO_BOOST, pick]
  have h : ((3 : Int) + 1 - 1).toNat = 3 := by decide
  rw [h]
  simp only [sched_effective_boost_loop, tbl_get]
  by_cases ha : a ≥ 1 <;> by_cases hb : b ≥ 1 <;> by_cases hc : c ≥ 1 <;>
    simp [ha, hb, hc, NO_BOOST]

/-- The initial state has the shape of a reachable state. -/
theorem inv_init : Inv init :=
  ⟨0, 0, 0, by decide, by decide, by decide, rfl⟩

/-- A wrapped value lies in the range of an `int`. -/
theorem int_wrap_range (x : Int) : INT_MIN ≤ int_wrap x ∧ int_wrap x ≤ INT_MAX := by
  simp only [INT_MIN, INT_MAX]
  unfold int_wrap
  omega

/-- The scan returns an index of the table. -/
theorem pick_range (a b c : Int) : 0 ≤ pick a b c ∧ pick a b c ≤ 3 := by
  unfold pick; split_ifs <;> omega

/-- Evaluation of the request of mode 1 on a four-entry table, the incremented
count still under `int_wrap`. -/
theorem set_boost_request1_raw (r0 a b c v w : Int) (h0 : 0 ≤ v) (h3 : v ≤ 3) :
    sched_set_boost 1 ⟨[r0, a, b, c], v, w⟩ =
      some (0, ⟨[r0, int_wrap (a + 1), b, c], pick (int_wrap (a + 1)) b c, pick (int_wrap (a + 1)) b c⟩,
        if int_wrap (a + 1) = 1 ∧ pick (int_wrap (a + 1)) b c ≠ v then
          [Hook.exit v, Hook.enter (pick (int_wrap (a + 1)) b c)]
        else []) := by
  have hv : v = 0 ∨ v = 1 ∨ v = 2 ∨ v = 3 := by omega
  simp only [sched_set_boost, verify_boost_params, RESTRAINED_BOOST_DISABLE, RESTRAINED_BOOST,
    _sched_set_boost, sched_boost_enable]
  simp only [tbl_get, tbl_set, eff_four]
  by_cases hx : int_wrap (a + 1) = 1
  · rcases hv with rfl | rfl | rfl | rfl <;> simp [pick, eff_four, tbl_get, hx]
  · simp [hx, eff_four]

/-- Evaluation of the request of mode 1 on a four-entry table when the count is
below `INT_MAX`: the increment does not wrap. -/
theorem set_boost_request1 (r0 a b c v w : Int) (h0 : 0 ≤ v) (h3 : v ≤ 3)
    (hlo : INT_MIN ≤ a) (hhi : a < INT_MAX) :
    sched_set_boost 1 ⟨[r0, a, b, c], v, w⟩ =
      some (0, ⟨[r0, a + 1, b, c], pick (a + 1) b c, pick (a + 1) b c⟩,
        if a = 0 ∧ pick (a + 1) b c ≠ v then [Hook.exit v, Hook.enter (pick (a + 1) b c)]
        else []) := by
  have hw : int_wrap (a + 1) = a + 1 := by
    simp only [INT_MIN, INT_MAX] at hlo hhi
    unfold int_wrap
    omega
  rw [set_boost_request1_raw _ _ _ _ _ _ h0 h3, hw]
  by_cases h : a = 0
  · subst h
    simp
  · have h2 : ¬ (a + 1 = 1) := by omega
    simp [h, h2]

/-- Evaluation of the request of mode 1 on a four-entry table when the count is
`INT_MAX`: the increment wraps to `INT_MIN` and no hook runs. -/
theorem set_boost_request1_wrap (r0 b c v w : Int) (h0 : 0 ≤ v) (h3 : v ≤ 3) :
    sched_set_boost 1 ⟨[r0, 2147483647, b, c], v, w⟩ =
      some (0, ⟨[r0, -2147483648, b, c], pick (-2147483648) b c, pick (-2147483648) b c⟩, []) := by
  rw [set_boost_request1_raw _ _ _ _ _ _ h0 h3]
  have hw : int_wrap (2147483647 + 1) = -2147483648 := by decide
  rw [hw]
  simp

/-- Evaluation of the request of mode 2 on a four-entry table, the incremented
count still under `int_wrap`. -/
theorem set_boost_request2_raw (r0 a b c v w : Int) (h0 : 0 ≤ v) (h3 : v ≤ 3) :
    sched_set_boost 2 ⟨[r0, a, b, c], v, w⟩ =
      some (0, ⟨[r0, a, int_wrap (b + 1), c], pick a (int_wrap (b + 1)) c, pick a (int_wrap (b + 1)) c⟩,
        if int_wrap (b + 1) = 1 ∧ pick a (int_wrap (b + 1)) c ≠ v then
          [Hook.exit v, Hook.enter (pick a (int_wrap (b + 1)) c)]
        else []) := by
  have hv : v = 0 ∨ v = 1 ∨ v = 2 ∨ v = 3 := by omega
  simp only [sched_set_boost, verify_boost_params, RESTRAINED_BOOST_DISABLE, RESTRAINED_BOOST,
    _sched_set_boost, sched_boost_enable]
  simp only [tbl_get, tbl_set, eff_four]
  by_cases hx : int_wrap (b + 1) = 1
  · by_cases ha : a ≥ 1 <;>
      rcases hv with rfl | rfl | rfl | rfl <;> simp [pick, eff_four, tbl_get, ha, hx]
  · simp [hx, eff_four]

/-- Evaluation of the request of mode 2 on a four-entry table when the count is
below `INT_MAX`: the increment does not wrap. -/
theorem set_boost_request2 (r0 a b c v w : Int) (h0 : 0 ≤ v) (h3 : v ≤ 3)
    (hlo : INT_MIN ≤ b) (hhi : b < INT_MAX) :
    sched_set_boost 2 ⟨[r0, a, b, c], v, w⟩ =
      some (0, ⟨[r0, a, b + 1, c], pick a (b + 1) c, pick a (b + 1) c⟩,
        if b = 0 ∧ pick a (b + 1) c ≠ v then [Hook.exit v, Hook.enter (pick a (b + 1) c)]
        else []) := by
  have hw : int_wrap (b + 1) = b + 1 := by
    simp only [INT_MIN, INT_MAX] at hlo hhi
    unfold int_wrap
    omega
  rw [set_boost_request2_raw _ _ _ _ _ _ h0 h3, hw]
  by_cases h : b = 0
  · subst h
    simp
  · have h2 : ¬ (b + 1 = 1) := by omega
    simp [h, h2]

/-- Evaluation of the request of mode 2 on a four-entry table when the count is
`INT_MAX`: the increment wraps to `INT_MIN` and no hook runs. -/
theorem set_boost_request2_wrap (r0 a c v w : Int) (h0 : 0 ≤ v) (h3 : v ≤ 3) :
    sched_set_boost 2 ⟨[r0, a, 2147483647, c], v, w⟩ =
      some (0, ⟨[r0, a, -2147483648, c], pick a (-2147483648) c, pick a (-2147483648) c⟩, []) := by
  rw [set_boost_request2_raw _ _ _ _ _ _ h0 h3]
  have hw : int_wrap (2147483647 + 1) = -2147483648 := by decide
  rw [hw]
  simp

/-- Evaluation of the request of mode 3 on a four-entry table, the incremented
count still under `int_wrap`. -/
theorem set_boost_request3_raw (r0 a b c v w : Int) (h0 : 0 ≤ v) (h3 : v ≤ 3) :
    sched_set_boost 3 ⟨[r0, a, b, c], v, w⟩ =
      some (0, ⟨[r0, a, b, int_wrap (c + 1)], pick a b (int_wrap (c + 1)), pick a b (int_wrap (c + 1))⟩,
        if int_wrap (c + 1) = 1 ∧ pick a b (int_wrap (c + 1)) ≠ v then
          [Hook.exit v, Hook.enter (pick a b (int_wrap (c + 1)))]
        else []) := by
  have hv : v = 0 ∨ v = 1 ∨ v = 2 ∨ v = 3 := by omega
  simp only [sched_set_boost, verify_boost_params, RESTRAINED_BOOST_DISABLE, RESTRAINED_BOOST,
    _sched_set_boost, sched_boost_enable]
  simp only [tbl_get, tbl_set, eff_four]
  by_cases hx : int_wrap (c + 1) = 1
  · by_cases ha : a ≥ 1 <;> by_cases hb : b ≥ 1 <;>
      rcases hv with rfl | rfl | rfl | rfl <;> simp [pick, eff_four, tbl_get, ha, hb, hx]
  · simp [hx, eff_four]

/-- Evaluation of the request of mode 3 on a four-entry table when the count is
below `INT_MAX`: the increment does not wrap. -/
theorem set_boost_request3 (r0 a b c v w : Int) (h0 : 0 ≤ v) (h3 : v ≤ 3)
    (hlo : INT_MIN ≤ c) (hhi : c < INT_MAX) :
    sched_set_boost 3 ⟨[r0, a, b, c], v, w⟩ =
      some (0, ⟨[r0, a, b, c + 1], pick a b (c + 1), pick a b (c + 1)⟩,
        if c = 0 ∧ pick a b (c + 1) ≠ v then [Hook.exit v, Hook.enter (pick a b (c + 1))]
        else []) := by
  have hw : int_wrap (c + 1) = c + 1 := by
    simp only [INT_MIN, INT_MAX] at hlo hhi
    unfold int_wrap
    omega
  rw [set_boost_request3_raw _ _ _ _ _ _ h0 h3, hw]
  by_cases h : c = 0
  · subst h
    simp
  · have h2 : ¬ (c + 1 = 1) := by omega
    simp [h, h2]

/-- Evaluation of the request of mode 3 on a four-entry table when the count is
`INT_MAX`: the increment wraps to `INT_MIN` and no hook runs. -/
theorem set_boost_request3_wrap (r0 a b v w : Int) (h0 : 0 ≤ v) (h3 : v ≤ 3) :
    sched_set_boost 3 ⟨[r0, a, b, 2147483647], v, w⟩ =
      some (0, ⟨[r0, a, b, -2147483648], pick a b (-2147483648), pick a b (-2147483648)⟩, []) := by
  rw [set_boost_request3_raw _ _ _ _ _ _ h0 h3]
  have hw : int_wrap (2147483647 + 1) = -2147483648 := by decide
  rw [hw]
  simp

/-- Evaluation of the release of mode 1 on a four-entry table. -/
theorem set_boost_release1 (r0 a b c v w : Int) :
    sched_set_boost (-1) ⟨[r0, a, b, c], v, w⟩ =
      some (0,
        if a ≤ 0 then ⟨[r0, a, b, c], pick a b c, pick a b c⟩
        else ⟨[r0, a - 1, b, c], pick (a - 1) b c, pick (a - 1) b c⟩,
        if a = 1 then [Hook.exit 1, Hook.enter (pick 0 b c)] else []) := by
  simp only [sched_set_boost, verify_boost_params, RESTRAINED_BOOST_DISABLE, RESTRAINED_BOOST,
    _sched_set_boost, sched_boost_disable]
  simp only [tbl_get, tbl_set, eff_four]
  by_cases h1 : a = 1
  · subst h1
    by_cases hb : b ≥ 1 <;> by_cases hc : c ≥ 1 <;> simp [pick, eff_four, tbl_get, hb, hc]
  · by_cases h0 : a ≤ 0
    · simp [h0, h1, eff_four]
    · have h2 : ¬ a - 1 = 0 := by omega
      simp [h0, h1, h2, eff_four]

/-- Evaluation of the release of mode 2 on a four-entry table. -/
theorem set_boost_release2 (r0 a b c v w : Int) :
    sched_set_boost (-2) ⟨[r0, a, b, c], v, w⟩ =
      some (0,
        if b ≤ 0 then ⟨[r0, a, b, c], pick a b c, pick a b c⟩
        else ⟨[r0, a, b - 1, c], pick a (b - 1) c, pick a (b - 1) c⟩,
        if b = 1 then [Hook.exit 2, Hook.enter (pick a 0 c)] else []) := by
  simp only [sched_set_boost, verify_boost_params, RESTRAINED_BOOST_DISABLE, RESTRAINED_BOOST,
    _sched_set_boost, sched_boost_disable]
  simp only [tbl_get, tbl_set, eff_four]
  by_cases h1 : b = 1
  · subst h1
    by_cases ha : a ≥ 1 <;> by_cases hc : c ≥ 1 <;> simp [pick, eff_four, tbl_get, ha, hc]
  · by_cases h0 : b ≤ 0
    · simp [h0, h1, eff_four]
    · have h2 : ¬ b - 1 = 0 := by omega
      simp [h0, h1, h2, eff_four]

/-- Evaluation of the release of mode 3 on a four-entry table. -/
theorem set_boost_release3 (r0 a b c v w : Int) :
    sched_set_boost (-3) ⟨[r0, a, b, c], v, w⟩ =
      some (0,
        if c ≤ 0 then ⟨[r0, a, b, c], pick a b c, pick a b c⟩
        else ⟨[r0, a, b, c - 1], pick a b (c - 1), pick a b (c - 1)⟩,
        if c = 1 then [Hook.exit 3, Hook.enter (pick a b 0)] else []) := by
  simp only [sched_set_boost, verify_boost_params, RESTRAINED_BOOST_DISABLE, RESTRAINED_BOOST,
    _sched_set_boost, sched_boost_disable]
  simp only [tbl_get, tbl_set, eff_four]
  by_cases h1 : c = 1
  · subst h1
    by_cases ha : a ≥ 1 <;> by_cases hb : b ≥ 1 <;> simp [pick, eff_four, tbl_get, ha, hb]
  · by_cases h0 : c ≤ 0
    · simp [h0, h1, eff_four]
    · have h2 : ¬ c - 1 = 0 := by omega
      simp [h0, h1, h2, eff_four]

/-- Evaluation of the reset on a four-entry table with non-negative elevated
refcounts. -/
theorem set_boost_reset (r0 a b c v w : Int) (ha : 0 ≤ a) (hb : 0 ≤ b) (hc : 0 ≤ c) :
    sched_set_boost 0 ⟨[r0, a, b, c], v, w⟩ =
      some (0, ⟨[r0, 0, 0, 0], 0, 0⟩,
        (if a > 0 then [Hook.exit 1] else []) ++ (if b > 0 then [Hook.exit 2] else []) ++
          (if c > 0 then [Hook.exit 3] else [])) := by
  simp only [sched_set_boost, verify_boost_params, RESTRAINED_BOOST_DISABLE, RESTRAINED_BOOST,
    _sched_set_boost, sched_boost_disable_all, SCHED_BOOST_END, SCHED_BOOST_START,
    FULL_THROTTLE_BOOST]
  have h : ((3 : Int) + 1 - 1).toNat = 3 := by decide
  rw [h]
  simp only [sched_boost_disable_all_loop, tbl_get, tbl_set]
  by_cases ha1 : a > 0 <;> by_cases hb1 : b > 0 <;> by_cases hc1 : c > 0 <;>
    simp [ha1, hb1, hc1, eff_four, pick] <;> omega

/-- Evaluation of the reset on a four-entry table: every positive elevated
refcount is exited and zeroed, the others are left alone. -/
theorem set_boost_reset_gen (r0 a b c v w : Int) :
    sched_set_boost 0 ⟨[r0, a, b, c], v, w⟩ =
      some (0, ⟨[r0, if a > 0 then 0 else a, if b > 0 then 0 else b, if c > 0 then 0 else c],
          0, 0⟩,
        (if a > 0 then [Hook.exit 1] else []) ++ (if b > 0 then [Hook.exit 2] else []) ++
          (if c > 0 then [Hook.exit 3] else [])) := by
  simp only [sched_set_boost, verify_boost_params, RESTRAINED_BOOST_DISABLE, RESTRAINED_BOOST,
    _sched_set_boost, sched_boost_disable_all, SCHED_BOOST_END, SCHED_BOOST_START,
    FULL_THROTTLE_BOOST]
  have h : ((3 : Int) + 1 - 1).toNat = 3 := by decide
  rw [h]
  simp only [sched_boost_disable_all_loop, tbl_get, tbl_set]
  by_cases ha1 : a > 0 <;> by_cases hb1 : b > 0 <;> by_cases hc1 : c > 0 <;>
    simp [ha1, hb1, hc1, eff_four, pick] <;> omega

/-- Every call of `sched_set_boost` from a state of reachable shape returns, in
a state of reachable shape: no table access is out of bounds. -/
theorem step_inv (s : State) (h : Inv s) (c : Int) :
    ∃ r s1 tr, sched_set_boost c s = some (r, s1, tr) ∧ Inv s1 := by
  obtain ⟨a, b, c3, ha, hb, hc, rfl⟩ := h
  obtain ⟨hp0, hp3⟩ := pick_range a b c3
  simp only [INT_MIN, INT_MAX] at ha hb hc
  by_cases hv : verify_boost_params c = true
  · have hc7 : c = -3 ∨ c = -2 ∨ c = -1 ∨ c = 0 ∨ c = 1 ∨ c = 2 ∨ c = 3 := by
      simp [verify_boost_params, RESTRAINED_BOOST_DISABLE, RESTRAINED_BOOST] at hv
      omega
    rcases hc7 with rfl | rfl | rfl | rfl | rfl | rfl | rfl
    · rw [set_boost_release3]
      refine ⟨_, _, _, rfl, ?_⟩
      split_ifs
      · exact ⟨a, b, c3, ha, hb, hc, rfl⟩
      · exact ⟨a, b, c3 - 1, ha, hb, by simp only [INT_MIN, INT_MAX]; omega, rfl⟩
    · rw [set_boost_release2]
      refine ⟨_, _, _, rfl, ?_⟩
      split_ifs
      · exact ⟨a, b, c3, ha, hb, hc, rfl⟩
      · exact ⟨a, b - 1, c3, ha, by simp only [INT_MIN, INT_MAX]; omega, hc, rfl⟩
    · rw [set_boost_release1]
      refine ⟨_, _, _, rfl, ?_⟩
      split_ifs
      · exact ⟨a, b, c3, ha, hb, hc, rfl⟩
      · exact ⟨a - 1, b, c3, by simp only [INT_MIN, INT_MAX]; omega, hb, hc, rfl⟩
    · rw [set_boost_reset_gen]
      have hp : pick (if a > 0 then 0 else a) (if b > 0 then 0 else b)
          (if c3 > 0 then 0 else c3) = 0 := by
        simp only [pick]
        split_ifs <;> omega
      refine ⟨_, _, _, rfl, (if a > 0 then 0 else a), (if b > 0 then 0 else b),
        (if c3 > 0 then 0 else c3), ?_, ?_, ?_, ?_⟩
      · simp only [INT_MIN, INT_MAX]; split_ifs <;> omega
      · simp only [INT_MIN, INT_MAX]; split_ifs <;> omega
      · simp only [INT_MIN, INT_MAX]; split_ifs <;> omega
      · rw [hp]
    · rw [set_boost_request1_raw _ _ _ _ _ _ hp0 hp3]
      exact ⟨_, _, _, rfl, _, b, c3, int_wrap_range _, hb, hc, rfl⟩
    · rw [set_boost_request2_raw _ _ _ _ _ _ hp0 hp3]
      exact ⟨_, _, _, rfl, a, _, c3, ha, int_wrap_range _, hc, rfl⟩
    · rw [set_boost_request3_raw _ _ _ _ _ _ hp0 hp3]
      exact ⟨_, _, _, rfl, a, b, _, ha, hb, int_wrap_range _, rfl⟩
  · exact ⟨-EINVAL, _, [], by simp [sched_set_boost, hv], a, b, c3, ha, hb, hc, rfl⟩

/-- A run extended by one last command. -/
theorem run_snoc (cmds : List Int) (c : Int) (s : State) :
    run (cmds ++ [c]) s =
      match run cmds s with
      | none => none
      | some (s1, t1) =>
        match sched_set_boost c s1 with
        | none => none
        | some (_, s2, t2) => some (s2, t1 ++ t2) := by
  induction cmds generalizing s with
  | nil =>
    simp only [List.nil_append, run]
    cases h : sched_set_boost c s with
    | none => rfl
    | some p => obtain ⟨r, s2, t2⟩ := p; simp
  | cons d ds ih =>
    have e : run (d :: ds ++ [c]) s =
        match sched_set_boost d s with
        | none => none
        | some (_, s1, tr) =>
          match run (ds ++ [c]) s1 with
          | none => none
          | some (s2, tr2) => some (s2, tr ++ tr2) := rfl
    rw [e]
    simp only [run]
    cases h : sched_set_boost d s with
    | none => rfl
    | some p =>
      obtain ⟨r, s1, t1⟩ := p
      simp only [ih]
      cases h1 : run ds s1 with
      | none => rfl
      | some q =>
        obtain ⟨s2, t2⟩ := q
        simp only
        cases h2 : sched_set_boost c s2 with
        | none => rfl
        | some p2 => obtain ⟨r2, s3, t3⟩ := p2; simp

/-- Induction over runs from the initial state: every run completes, and a
property that holds initially and is kept by each call holds at its end. -/
theorem run_invariant (P : List Int → State → List Hook → Prop) (h0 : P [] init [])
    (hstep : ∀ cmds s tr c r s1 t1, Inv s → P cmds s tr →
      sched_set_boost c s = some (r, s1, t1) → P (cmds ++ [c]) s1 (tr ++ t1)) :
    ∀ cmds, ∃ s tr, run cmds init = some (s, tr) ∧ Inv s ∧ P cmds s tr := by
  intro cmds
  induction cmds using List.reverseRecOn with
  | nil => exact ⟨init, [], rfl, inv_init, h0⟩
  | append_singleton l c ih =>
    obtain ⟨s, tr, hrun, hinv, hP⟩ := ih
    obtain ⟨r, s1, t1, hs, hinv1⟩ := step_inv s hinv c
    refine ⟨s1, tr ++ t1, ?_, hinv1, hstep l s tr c r s1 t1 hinv hP hs⟩
    rw [run_snoc, hrun]
    simp only [hs]

/-- The initial state is reachable, by the empty run. -/
theorem reachable_init : Reachable init := ⟨[], [], rfl⟩

/-- Every reachable state has the reachable shape. -/
theorem reachable_inv (s : State) (h : Reachable s) : Inv s := by
  obtain ⟨cmds, tr, hrun⟩ := h
  obtain ⟨s1, tr1, hrun1, hinv, -⟩ :=
    run_invariant (fun _ _ _ => True) trivial (fun _ _ _ _ _ _ _ _ _ _ => trivial) cmds
  rw [hrun] at hrun1
  cases hrun1
  exact hinv

/-! ## Lemmas on the specification-level notions -/

/-- Reading a four-entry table succeeds only at the indices 0 to 3. -/
theorem tbl_get_four (r0 a b c i r : Int) (h : tbl_get [r0, a, b, c] i = some r) :
    (i = 0 ∧ r = r0) ∨ (i = 1 ∧ r = a) ∨ (i = 2 ∧ r = b) ∨ (i = 3 ∧ r = c) := by
  unfold tbl_get at h
  by_cases hi : 0 ≤ i
  · rw [if_pos hi] at h
    have h4 : i = 0 ∨ i = 1 ∨ i = 2 ∨ i = 3 ∨ 4 ≤ i := by omega
    rcases h4 with rfl | rfl | rfl | rfl | h4
    · simp at h; omega
    · simp at h; omega
    · simp at h; omega
    · simp at h; omega
    · have : 4 ≤ i.toNat := by omega
      obtain ⟨k, hk⟩ : ∃ k, i.toNat = k + 4 := ⟨i.toNat - 4, by omega⟩
      rw [hk] at h
      simp at h
  · rw [if_neg hi] at h
    cases h

/-- With non-negative refcounts the scan returns the highest active mode. -/
theorem pick_highest (r0 a b c : Int) (ha : 0 ≤ a) (hb : 0 ≤ b) (hc : 0 ≤ c) :
    IsHighestActive [r0, a, b, c] (pick a b c) := by
  unfold IsHighestActive pick
  simp only [NO_BOOST, FULL_THROTTLE_BOOST, RESTRAINED_BOOST]
  by_cases ha1 : a ≥ 1
  · right
    simp only [ha1, if_true]
    refine ⟨le_refl _, by decide, ⟨a, by simp [tbl_get], ha1⟩, ?_⟩
    intro j h1 h2; omega
  · by_cases hb1 : b ≥ 1
    · right
      simp only [ha1, hb1, if_true, if_false]
      refine ⟨by decide, by decide, ⟨b, by simp [tbl_get], hb1⟩, ?_⟩
      intro j h1 h2
      obtain rfl : j = 1 := by omega
      exact ⟨a, by simp [tbl_get], by omega⟩
    · by_cases hc1 : c ≥ 1
      · right
        simp only [ha1, hb1, hc1, if_true, if_false]
        refine ⟨by decide, by decide, ⟨c, by simp [tbl_get], hc1⟩, ?_⟩
        intro j h1 h2
        have hj : j = 1 ∨ j = 2 := by omega
        rcases hj with rfl | rfl
        · exact ⟨a, by simp [tbl_get], by omega⟩
        · exact ⟨b, by simp [tbl_get], by omega⟩
      · left
        simp only [ha1, hb1, hc1, if_false]
        refine ⟨trivial, ?_⟩
        intro i h1 h2
        have hi : i = 1 ∨ i = 2 ∨ i = 3 := by omega
        obtain rfl : a = 0 := by omega
        obtain rfl : b = 0 := by omega
        obtain rfl : c = 0 := by omega
        rcases hi with rfl | rfl | rfl <;> simp [tbl_get]

/-- Two tables that agree at every index but `M` read the same at `j ≠ M`. -/
theorem tbl_get_frame (t u : List Int) (M j : Int) (hj : j ≠ M)
    (h : ∀ n : Nat, (n : Int) ≠ M → u.get? n = t.get? n) : tbl_get u j = tbl_get t j := by
  unfold tbl_get
  by_cases h0 : 0 ≤ j
  · rw [if_pos h0, if_pos h0]
    apply h
    rw [Int.toNat_of_nonneg h0]
    exact hj
  · rw [if_neg h0, if_neg h0]

/-- Tables that differ at index 1 only. -/
theorem tbl_frame1 (r0 a x b c j : Int) (hj : j ≠ 1) :
    tbl_get [r0, x, b, c] j = tbl_get [r0, a, b, c] j := by
  apply tbl_get_frame _ _ 1 j hj
  intro n hn
  rcases n with _ | _ | n
  · rfl
  · exact absurd rfl hn
  · rfl

/-- Tables that differ at index 2 only. -/
theorem tbl_frame2 (r0 a b x c j : Int) (hj : j ≠ 2) :
    tbl_get [r0, a, x, c] j = tbl_get [r0, a, b, c] j := by
  apply tbl_get_frame _ _ 2 j hj
  intro n hn
  rcases n with _ | _ | _ | n
  · rfl
  · rfl
  · exact absurd rfl hn
  · rfl

/-- Tables that differ at index 3 only. -/
theorem tbl_frame3 (r0 a b c x j : Int) (hj : j ≠ 3) :
    tbl_get [r0, a, b, x] j = tbl_get [r0, a, b, c] j := by
  apply tbl_get_frame _ _ 3 j hj
  intro n hn
  rcases n with _ | _ | _ | _ | n
  · rfl
  · rfl
  · rfl
  · exact absurd rfl hn
  · rfl

/-- Shape of a request of an elevated mode `M` whose refcount is not `INT_MAX`,
from a reachable state: either
no hook runs and the effective mode is unchanged, or `M` becomes the effective
mode, in place of the baseline or of a mode of lower priority, and the hooks are
the exit of the previous effective mode and the enter of `M`. -/
theorem request_shape (s : State) (hinv : Inv s) (M : Int) (h1 : 1 ≤ M) (h3 : M ≤ 3)
    (hmax : tbl_get s.sched_boosts M ≠ some INT_MAX) (r : Int)
    (s1 : State) (t1 : List Hook) (hstep : sched_set_boost M s = some (r, s1, t1)) :
    (t1 = [] ∧ s1.sched_boost_val = s.sched_boost_val) ∨
    (t1 = [Hook.exit s.sched_boost_val, Hook.enter s1.sched_boost_val] ∧
      s1.sched_boost_val = M ∧ (s.sched_boost_val = 0 ∨ M < s.sched_boost_val)) := by
  obtain ⟨a, b, c3, ha, hb, hc3, rfl⟩ := hinv
  obtain ⟨hp0, hp3⟩ := pick_range a b c3
  have hM : M = 1 ∨ M = 2 ∨ M = 3 := by omega
  rcases hM with rfl | rfl | rfl
  · have hhi : a < INT_MAX := by
      simp only [INT_MIN, INT_MAX] at ha hmax ⊢
      simp [tbl_get] at hmax
      omega
    rw [set_boost_request1 _ _ _ _ _ _ hp0 hp3 ha.1 hhi] at hstep
    simp only [Option.some.injEq, Prod.mk.injEq] at hstep
    obtain ⟨-, rfl, rfl⟩ := hstep
    by_cases h1 : a = 0 ∧ pick (a + 1) b c3 ≠ pick a b c3
    · right
      have h2 : pick (a + 1) b c3 = 1 ∧ (pick a b c3 = 0 ∨ 1 < pick a b c3) := by
        obtain ⟨h0, hne⟩ := h1
        simp only [pick] at hne ⊢
        split_ifs at hne ⊢ <;> omega
      exact ⟨by rw [if_pos h1], h2.1, h2.2⟩
    · left
      refine ⟨by rw [if_neg h1], ?_⟩
      by_cases h0 : a = 0
      · have h2 : pick (a + 1) b c3 = pick a b c3 := by
          by_contra h2
          exact h1 ⟨h0, h2⟩
        exact h2
      · simp only [pick]
        split_ifs <;> omega
  · have hhi : b < INT_MAX := by
      simp only [INT_MIN, INT_MAX] at hb hmax ⊢
      simp [tbl_get] at hmax
      omega
    rw [set_boost_request2 _ _ _ _ _ _ hp0 hp3 hb.1 hhi] at hstep
    simp only [Option.some.injEq, Prod.mk.injEq] at hstep
    obtain ⟨-, rfl, rfl⟩ := hstep
    by_cases h1 : b = 0 ∧ pick a (b + 1) c3 ≠ pick a b c3
    · right
      have h2 : pick a (b + 1) c3 = 2 ∧ (pick a b c3 = 0 ∨ 2 < pick a b c3) := by
        obtain ⟨h0, hne⟩ := h1
        simp only [pick] at hne ⊢
        split_ifs at hne ⊢ <;> omega
      exact ⟨by rw [if_pos h1], h2.1, h2.2⟩
    · left
      refine ⟨by rw [if_neg h1], ?_⟩
      by_cases h0 : b = 0
      · have h2 : pick a (b + 1) c3 = pick a b c3 := by
          by_contra h2
          exact h1 ⟨h0, h2⟩
        exact h2
      · simp only [pick]
        split_ifs <;> omega
  · have hhi : c3 < INT_MAX := by
      simp only [INT_MIN, INT_MAX] at hc3 hmax ⊢
      simp [tbl_get] at hmax
      omega
    rw [set_boost_request3 _ _ _ _ _ _ hp0 hp3 hc3.1 hhi] at hstep
    simp only [Option.some.injEq, Prod.mk.injEq] at hstep
    obtain ⟨-, rfl, rfl⟩ := hstep
    by_cases h1 : c3 = 0 ∧ pick a b (c3 + 1) ≠ pick a b c3
    · right
      have h2 : pick a b (c3 + 1) = 3 ∧ (pick a b c3 = 0 ∨ 3 < pick a b c3) := by
        obtain ⟨h0, hne⟩ := h1
        simp only [pick] at hne ⊢
        split_ifs at hne ⊢ <;> omega
      exact ⟨by rw [if_pos h1], h2.1, h2.2⟩
    · left
      refine ⟨by rw [if_neg h1], ?_⟩
      by_cases h0 : c3 = 0
      · have h2 : pick a b (c3 + 1) = pick a b c3 := by
          by_contra h2
          exact h1 ⟨h0, h2⟩
        exact h2
      · simp only [pick]
        split_ifs <;> omega

/-- Shape of a release of an elevated mode `M` from a reachable state: either
the refcount of `M` was not 1, no hook runs and the effective mode is
unchanged, or the refcount of `M` was 1
and the hooks are the exit of `M` and the enter of the new effective mode, where
either `M` was the effective mode and the baseline or a mode of lower priority
takes over, or the effective mode is a mode of higher priority than `M` and
stays. -/
theorem release_shape (s : State) (hinv : Inv s) (M : Int) (h1 : 1 ≤ M) (h3 : M ≤ 3) (r : Int)
    (s1 : State) (t1 : List Hook) (hstep : sched_set_boost (-M) s = some (r, s1, t1)) :
    (t1 = [] ∧ s1.sched_boost_val = s.sched_boost_val ∧ tbl_get s.sched_boosts M ≠ some 1) ∨
    (t1 = [Hook.exit M, Hook.enter s1.sched_boost_val] ∧
      tbl_get s.sched_boosts M = some 1 ∧
      ((s.sched_boost_val = M ∧ (s1.sched_boost_val = 0 ∨ M < s1.sched_boost_val)) ∨
        (s1.sched_boost_val = s.sched_boost_val ∧ 1 ≤ s.sched_boost_val ∧
          s.sched_boost_val < M))) := by
  obtain ⟨a, b, c3, ha, hb, hc3, rfl⟩ := hinv
  have hM : M = 1 ∨ M = 2 ∨ M = 3 := by omega
  rcases hM with rfl | rfl | rfl
  · rw [set_boost_release1] at hstep
    simp only [Option.some.injEq, Prod.mk.injEq] at hstep
    obtain ⟨-, rfl, rfl⟩ := hstep
    by_cases h1 : a = 1
    · subst h1
      right
      refine ⟨by simp, by simp [tbl_get], ?_⟩
      simp only [pick]
      split_ifs <;> simp_all
    · left
      refine ⟨by simp [h1], ?_, by simp [tbl_get, h1]⟩
      simp only [pick]
      split_ifs <;> simp_all <;> omega
  · rw [set_boost_release2] at hstep
    simp only [Option.some.injEq, Prod.mk.injEq] at hstep
    obtain ⟨-, rfl, rfl⟩ := hstep
    by_cases h1 : b = 1
    · subst h1
      right
      refine ⟨by simp, by simp [tbl_get], ?_⟩
      simp only [pick]
      split_ifs <;> simp_all
    · left
      refine ⟨by simp [h1], ?_, by simp [tbl_get, h1]⟩
      simp only [pick]
      split_ifs <;> simp_all <;> omega
  · rw [set_boost_release3] at hstep
    simp only [Option.some.injEq, Prod.mk.injEq] at hstep
    obtain ⟨-, rfl, rfl⟩ := hstep
    by_cases h1 : c3 = 1
    · subst h1
      right
      refine ⟨by simp, by simp [tbl_get], ?_⟩
      simp only [pick]
      split_ifs <;> simp_all
    · left
      refine ⟨by simp [h1], ?_, by simp [tbl_get, h1]⟩
      simp only [pick]
      split_ifs <;> simp_all <;> omega

/-- A valid command is one of the seven values `-3 .. 3`. -/
theorem verify_cases (c : Int) (hv : verify_boost_params c = true) :
    c = -3 ∨ c = -2 ∨ c = -1 ∨ c = 0 ∨ c = 1 ∨ c = 2 ∨ c = 3 := by
  simp [verify_boost_params, RESTRAINED_BOOST_DISABLE, RESTRAINED_BOOST] at hv
  omega

/-- An invalid command changes nothing and runs no hook. -/
theorem invalid_step (c : Int) (hv : ¬ verify_boost_params c = true) (s : State) :
    sched_set_boost c s = some (-EINVAL, s, []) := by
  simp [sched_set_boost, hv]

/-- A valid command from a state of reachable shape returns 0, in a state of
reachable shape. -/
theorem valid_step (s : State) (hinv : Inv s) (c : Int) (hv : verify_boost_params c = true) :
    ∃ s1 tr, sched_set_boost c s = some (0, s1, tr) ∧ Inv s1 := by
  obtain ⟨r, s1, tr, hstep, hinv1⟩ := step_inv s hinv c
  have hr : r = 0 := by
    unfold sched_set_boost at hstep
    rw [if_pos hv] at hstep
    cases h : _sched_set_boost c s with
    | none => rw [h] at hstep; cases hstep
    | some p => rw [h] at hstep; obtain ⟨s2, t2⟩ := p; simp at hstep; omega
  subst hr
  exact ⟨s1, tr, hstep, hinv1⟩

/-- The hook calls of two traces in a row. -/
theorem run_hooks_append (t1 t2 : List Hook) (e : Ext) :
    run_hooks (t1 ++ t2) e =
      match run_hooks t1 e with
      | none => none
      | some e1 => run_hooks t2 e1 := by
  induction t1 generalizing e with
  | nil => rfl
  | cons h hs ih =>
    simp only [List.cons_append, run_hooks]
    cases call_hook h e with
    | none => rfl
    | some e1 => exact ih e1

/-- An exit followed by an enter takes the outside state of the effective mode
`v` to the outside state of the entered mode `y`, when the exited mode is `v`
itself, or when `y` is `v` and the exited mode has lower priority than `v`. -/
theorem ext_exit_enter (x y v : Int) (hx : 0 ≤ x ∧ x ≤ 3) (hy : 0 ≤ y ∧ y ≤ 3)
    (hv : 0 ≤ v ∧ v ≤ 3) (h : x = v ∨ (y = v ∧ 1 ≤ v ∧ v < x)) :
    run_hooks [Hook.exit x, Hook.enter y] (ext_of v) = some (ext_of y) := by
  have hx4 : x = 0 ∨ x = 1 ∨ x = 2 ∨ x = 3 := by omega
  have hy4 : y = 0 ∨ y = 1 ∨ y = 2 ∨ y = 3 := by omega
  have hv4 : v = 0 ∨ v = 1 ∨ v = 2 ∨ v = 3 := by omega
  rcases hx4 with rfl | rfl | rfl | rfl <;> rcases hy4 with rfl | rfl | rfl | rfl <;>
    rcases hv4 with rfl | rfl | rfl | rfl <;> first | decide | (exfalso; omega)

/-- An exit and enter pair, run under a condition or not at all, holds the enter
hook of any one mode at most once. -/
theorem count_enter_ite (p : Prop) [Decidable p] (x y m : Int) :
    (if p then [Hook.exit x, Hook.enter y] else []).count (Hook.enter m) ≤ 1 := by
  split_ifs
  · simp only [List.count_cons, List.count_nil]
    split_ifs <;> simp_all
  · simp

/-- A trace whose hook calls all succeed goes through indices of the table
only. -/
theorem run_hooks_index (t : List Hook) (e e1 : Ext) (h : run_hooks t e = some e1) :
    ∀ k ∈ t, 0 ≤ hook_index k ∧ hook_index k ≤ 3 := by
  induction t generalizing e with
  | nil => intro k hk; cases hk
  | cons x xs ih =>
    simp only [run_hooks] at h
    cases hx : call_hook x e with
    | none => rw [hx] at h; cases h
    | some e2 =>
      rw [hx] at h
      intro k hk
      rcases List.mem_cons.1 hk with rfl | hk
      · cases k with
        | enter i =>
          simp only [call_hook, NO_BOOST, FULL_THROTTLE_BOOST, CONSERVATIVE_BOOST,
            RESTRAINED_BOOST] at hx
          simp only [hook_index]
          split_ifs at hx <;> omega
        | exit i =>
          simp only [call_hook, NO_BOOST, FULL_THROTTLE_BOOST, CONSERVATIVE_BOOST,
            RESTRAINED_BOOST] at hx
          simp only [hook_index]
          split_ifs at hx <;> omega
      · exact ih e2 h k hk

/-- Taking over from the baseline or from a mode of larger index does not lower
the priority. -/
theorem priority_le (x y : Int) (hx : 0 ≤ x ∧ x ≤ 3) (hy : 1 ≤ y ∧ y ≤ 3)
    (h : x = 0 ∨ y < x) : priority x ≤ priority y := by
  have hx4 : x = 0 ∨ x = 1 ∨ x = 2 ∨ x = 3 := by omega
  have hy3 : y = 1 ∨ y = 2 ∨ y = 3 := by omega
  rcases hx4 with rfl | rfl | rfl | rfl <;> rcases hy3 with rfl | rfl | rfl <;>
    first | decide | (exfalso; omega)

/-- The effective mode of a state of reachable shape is an index of the table. -/
theorem inv_val_range (s : State) (hinv : Inv s) :
    0 ≤ s.sched_boost_val ∧ s.sched_boost_val ≤ 3 := by
  obtain ⟨a, b, c, -, -, -, rfl⟩ := hinv
  exact pick_range a b c

/-- The scan result is the first elevated mode with refcount at least 1, or the
baseline when there is none, whatever the sign of the refcounts. -/
theorem pick_first (r0 a b c : Int) : IsFirstActive [r0, a, b, c] (pick a b c) := by
  unfold IsFirstActive pick
  simp only [NO_BOOST, FULL_THROTTLE_BOOST, RESTRAINED_BOOST]
  by_cases ha1 : a ≥ 1
  · right
    simp only [ha1, if_true]
    refine ⟨le_refl _, by decide, ⟨a, by simp [tbl_get], ha1⟩, ?_⟩
    intro j h1 h2; omega
  · by_cases hb1 : b ≥ 1
    · right
      simp only [ha1, hb1, if_true, if_false]
      refine ⟨by decide, by decide, ⟨b, by simp [tbl_get], hb1⟩, ?_⟩
      intro j h1 h2
      obtain rfl : j = 1 := by omega
      exact ⟨a, by simp [tbl_get], by omega⟩
    · by_cases hc1 : c ≥ 1
      · right
        simp only [ha1, hb1, hc1, if_true, if_false]
        refine ⟨by decide, by decide, ⟨c, by simp [tbl_get], hc1⟩, ?_⟩
        intro j h1 h2
        have hj : j = 1 ∨ j = 2 := by omega
        rcases hj with rfl | rfl
        · exact ⟨a, by simp [tbl_get], by omega⟩
        · exact ⟨b, by simp [tbl_get], by omega⟩
      · left
        simp only [ha1, hb1, hc1, if_false]
        refine ⟨trivial, ?_⟩
        intro i h1 h2
        have hi : i = 1 ∨ i = 2 ∨ i = 3 := by omega
        rcases hi with rfl | rfl | rfl
        · exact ⟨a, by simp [tbl_get], by omega⟩
        · exact ⟨b, by simp [tbl_get], by omega⟩
        · exact ⟨c, by simp [tbl_get], by omega⟩

/-- A state bounded by a count within the range of an `int` has the reachable
shape. -/
theorem bounded_inv (n : Int) (hn : n ≤ INT_MAX) (s : State) (h : Bounded n s) : Inv s := by
  obtain ⟨a, b, c, ha, hb, hc, rfl⟩ := h
  simp only [INT_MAX] at hn
  exact ⟨a, b, c, by simp only [INT_MIN, INT_MAX]; omega, by simp only [INT_MIN, INT_MAX]; omega,
    by simp only [INT_MIN, INT_MAX]; omega, rfl⟩

/-- The hooks of a call that is not a reset, from a reachable state: none, or
one exit followed by one enter, both through indices of the table. -/
theorem nonreset_hooks (s : State) (hinv : Inv s) (c : Int) (hc : c ≠ 0) (r : Int)
    (s1 : State) (t1 : List Hook) (hstep : sched_set_boost c s = some (r, s1, t1)) :
    t1 = [] ∨ ∃ x y, t1 = [Hook.exit x, Hook.enter y] ∧ (0 ≤ x ∧ x ≤ 3) ∧ (0 ≤ y ∧ y ≤ 3) := by
  obtain ⟨a, b, c3, ha, hb, hc3, rfl⟩ := hinv
  obtain ⟨hp0, hp3⟩ := pick_range a b c3
  by_cases hv : verify_boost_params c = true
  · rcases verify_cases c hv with rfl | rfl | rfl | rfl | rfl | rfl | rfl
    · rw [set_boost_release3] at hstep
      simp only [Option.some.injEq, Prod.mk.injEq] at hstep
      obtain ⟨-, -, rfl⟩ := hstep
      split_ifs
      · exact Or.inr ⟨_, _, rfl, by decide, pick_range _ _ _⟩
      · exact Or.inl rfl
    · rw [set_boost_release2] at hstep
      simp only [Option.some.injEq, Prod.mk.injEq] at hstep
      obtain ⟨-, -, rfl⟩ := hstep
      split_ifs
      · exact Or.inr ⟨_, _, rfl, by decide, pick_range _ _ _⟩
      · exact Or.inl rfl
    · rw [set_boost_release1] at hstep
      simp only [Option.some.injEq, Prod.mk.injEq] at hstep
      obtain ⟨-, -, rfl⟩ := hstep
      split_ifs
      · exact Or.inr ⟨_, _, rfl, by decide, pick_range _ _ _⟩
      · exact Or.inl rfl
    · exact absurd rfl hc
    · rw [set_boost_request1_raw _ _ _ _ _ _ hp0 hp3] at hstep
      simp only [Option.some.injEq, Prod.mk.injEq] at hstep
      obtain ⟨-, -, rfl⟩ := hstep
      split_ifs
      · exact Or.inr ⟨_, _, rfl, ⟨hp0, hp3⟩, pick_range _ _ _⟩
      · exact Or.inl rfl
    · rw [set_boost_request2_raw _ _ _ _ _ _ hp0 hp3] at hstep
      simp only [Option.some.injEq, Prod.mk.injEq] at hstep
      obtain ⟨-, -, rfl⟩ := hstep
      split_ifs
      · exact Or.inr ⟨_, _, rfl, ⟨hp0, hp3⟩, pick_range _ _ _⟩
      · exact Or.inl rfl
    · rw [set_boost_request3_raw _ _ _ _ _ _ hp0 hp3] at hstep
      simp only [Option.some.injEq, Prod.mk.injEq] at hstep
      obtain ⟨-, -, rfl⟩ := hstep
      split_ifs
      · exact Or.inr ⟨_, _, rfl, ⟨hp0, hp3⟩, pick_range _ _ _⟩
      · exact Or.inl rfl
  · rw [invalid_step c hv] at hstep
    simp only [Option.some.injEq, Prod.mk.injEq] at hstep
    obtain ⟨-, -, rfl⟩ := hstep
    exact Or.inl rfl

/-- The hooks of a reset go through the indices 1 to 3. -/
theorem reset_hooks_index (a b c : Int) :
    ∀ k ∈ (if a > 0 then [Hook.exit 1] else []) ++ (if b > 0 then [Hook.exit 2] else []) ++
        (if c > 0 then [Hook.exit 3] else []), 0 ≤ hook_index k ∧ hook_index k ≤ 3 := by
  intro k hk
  by_cases ha1 : a > 0 <;> by_cases hb1 : b > 0 <;> by_cases hc1 : c > 0 <;>
    simp [ha1, hb1, hc1] at hk <;> (try rcases hk with rfl | rfl | rfl) <;>
    simp [hook_index]

/-- Every hook call of a call from a reachable state goes through an index of
the table. -/
theorem step_hooks_index (s : State) (hinv : Inv s) (c r : Int) (s1 : State) (t1 : List Hook)
    (hstep : sched_set_boost c s = some (r, s1, t1)) :
    ∀ k ∈ t1, 0 ≤ hook_index k ∧ hook_index k ≤ 3 := by
  by_cases hc : c = 0
  · subst hc
    obtain ⟨a, b, c3, -, -, -, rfl⟩ := hinv
    rw [set_boost_reset_gen] at hstep
    simp only [Option.some.injEq, Prod.mk.injEq] at hstep
    obtain ⟨-, -, rfl⟩ := hstep
    exact reset_hooks_index a b c3
  · rcases nonreset_hooks s hinv c hc r s1 t1 hstep with rfl | ⟨x, y, rfl, hx, hy⟩
    · intro k hk; cases hk
    · intro k hk
      simp only [List.mem_cons, List.mem_singleton, List.not_mem_nil, or_false] at hk
      rcases hk with rfl | rfl
      · exact hx
      · exact hy

/-- One call from a state bounded by `n`, with `n` below `INT_MAX`, ends in a
state bounded by `n + 1`: no increment wraps. -/
theorem step_bounded (n : Int) (hn : n < INT_MAX) (s : State) (hb : Bounded n s) (cmd r : Int)
    (s1 : State) (t1 : List Hook) (hstep : sched_set_boost cmd s = some (r, s1, t1)) :
    Bounded (n + 1) s1 := by
  obtain ⟨a, b, c, ha, hb, hc, rfl⟩ := hb
  obtain ⟨hp0, hp3⟩ := pick_range a b c
  simp only [INT_MAX] at hn
  have hlo : ∀ x : Int, 0 ≤ x → INT_MIN ≤ x := by
    intro x hx; simp only [INT_MIN]; omega
  have hhi : ∀ x : Int, x ≤ n → x < INT_MAX := by
    intro x hx; simp only [INT_MAX]; omega
  by_cases hv : verify_boost_params cmd = true
  · rcases verify_cases cmd hv with rfl | rfl | rfl | rfl | rfl | rfl | rfl
    · rw [set_boost_release3] at hstep
      simp only [Option.some.injEq, Prod.mk.injEq] at hstep
      obtain ⟨-, rfl, -⟩ := hstep
      split_ifs
      · exact ⟨a, b, c, by omega, by omega, by omega, rfl⟩
      · exact ⟨a, b, c - 1, by omega, by omega, by omega, rfl⟩
    · rw [set_boost_release2] at hstep
      simp only [Option.some.injEq, Prod.mk.injEq] at hstep
      obtain ⟨-, rfl, -⟩ := hstep
      split_ifs
      · exact ⟨a, b, c, by omega, by omega, by omega, rfl⟩
      · exact ⟨a, b - 1, c, by omega, by omega, by omega, rfl⟩
    · rw [set_boost_release1] at hstep
      simp only [Option.some.injEq, Prod.mk.injEq] at hstep
      obtain ⟨-, rfl, -⟩ := hstep
      split_ifs
      · exact ⟨a, b, c, by omega, by omega, by omega, rfl⟩
      · exact ⟨a - 1, b, c, by omega, by omega, by omega, rfl⟩
    · rw [set_boost_reset _ _ _ _ _ _ ha.1 hb.1 hc.1] at hstep
      simp only [Option.some.injEq, Prod.mk.injEq] at hstep
      obtain ⟨-, rfl, -⟩ := hstep
      exact ⟨0, 0, 0, by omega, by omega, by omega, rfl⟩
    · rw [set_boost_request1 _ _ _ _ _ _ hp0 hp3 (hlo a ha.1) (hhi a ha.2)] at hstep
      simp only [Option.some.injEq, Prod.mk.injEq] at hstep
      obtain ⟨-, rfl, -⟩ := hstep
      exact ⟨a + 1, b, c, by omega, by omega, by omega, rfl⟩
    · rw [set_boost_request2 _ _ _ _ _ _ hp0 hp3 (hlo b hb.1) (hhi b hb.2)] at hstep
      simp only [Option.some.injEq, Prod.mk.injEq] at hstep
      obtain ⟨-, rfl, -⟩ := hstep
      exact ⟨a, b + 1, c, by omega, by omega, by omega, rfl⟩
    · rw [set_boost_request3 _ _ _ _ _ _ hp0 hp3 (hlo c hc.1) (hhi c hc.2)] at hstep
      simp only [Option.some.injEq, Prod.mk.injEq] at hstep
      obtain ⟨-, rfl, -⟩ := hstep
      exact ⟨a, b, c + 1, by omega, by omega, by omega, rfl⟩
  · rw [invalid_step cmd hv] at hstep
    simp only [Option.some.injEq, Prod.mk.injEq] at hstep
    obtain ⟨-, rfl, -⟩ := hstep
    exact ⟨a, b, c, by omega, by omega, by omega, rfl⟩

/-- Induction over the runs shorter than `2^31` commands: such a run completes
in a state bounded by its length, and a property that holds initially and is
kept by each call from a bounded state holds at its end. -/
theorem bounded_run_invariant (P : List Int → State → List Hook → Prop) (h0 : P [] init [])
    (hstep : ∀ cmds s tr c r s1 t1, Bounded cmds.length s → (cmds.length : Int) < INT_MAX →
      P cmds s tr → sched_set_boost c s = some (r, s1, t1) → P (cmds ++ [c]) s1 (tr ++ t1)) :
    ∀ cmds : List Int, cmds.length < 2147483648 →
      ∃ s tr, run cmds init = some (s, tr) ∧ Bounded cmds.length s ∧ P cmds s tr := by
  intro cmds hlen
  obtain ⟨s, tr, hrun, -, hP⟩ :=
    run_invariant
      (fun cmds s tr => cmds.length < 2147483648 → Bounded cmds.length s ∧ P cmds s tr)
      (fun _ => ⟨⟨0, 0, 0, by simp, by simp, by simp, rfl⟩, h0⟩)
      (fun cmds s tr c r s1 t1 _ hP hs => by
        intro hl
        simp only [List.length_append, List.length_singleton] at hl
        obtain ⟨hB, hP1⟩ := hP (by omega)
        have hn : (cmds.length : Int) < INT_MAX := by simp only [INT_MAX]; omega
        refine ⟨?_, hstep cmds s tr c r s1 t1 hB hn hP1 hs⟩
        have := step_bounded _ hn s hB c r s1 t1 hs
        simpa [List.length_append] using this) cmds
  obtain ⟨hB, hP1⟩ := hP hlen
  exact ⟨s, tr, hrun, hB, hP1⟩

/-- In a state bounded below `INT_MAX` no refcount is `INT_MAX`. -/
theorem bounded_not_max (n : Int) (hn : n < INT_MAX) (s : State) (hb : Bounded n s) (i : Int) :
    tbl_get s.sched_boosts i ≠ some INT_MAX := by
  obtain ⟨a, b, c, ha, hb, hc, rfl⟩ := hb
  intro h
  have h4 := tbl_get_four _ _ _ _ _ _ h
  simp only [INT_MAX] at hn h4
  omega

/-- One call of `sched_set_boost` from a reachable state, other than the request
of a mode whose refcount is `INT_MAX`, takes the outside state of the old
effective mode to the outside state of the new one. -/
theorem ext_step (s : State) (hinv : Inv s) (c r : Int) (s1 : State) (t1 : List Hook)
    (hmax : 0 < c → tbl_get s.sched_boosts c ≠ some INT_MAX)
    (hstep : sched_set_boost c s = some (r, s1, t1)) :
    run_hooks t1 (ext_of s.sched_boost_val) = some (ext_of s1.sched_boost_val) := by
  have hv0 := inv_val_range s hinv
  have hv1 : 0 ≤ s1.sched_boost_val ∧ s1.sched_boost_val ≤ 3 := by
    obtain ⟨r2, s2, t2, h2, hinv2⟩ := step_inv s hinv c
    rw [hstep] at h2
    simp only [Option.some.injEq, Prod.mk.injEq] at h2
    obtain ⟨-, rfl, -⟩ := h2
    exact inv_val_range _ hinv2
  by_cases hv : verify_boost_params c = true
  · rcases verify_cases c hv with rfl | rfl | rfl | rfl | rfl | rfl | rfl
    · rcases release_shape s hinv 3 (by decide) (by decide) r s1 t1 hstep with
        ⟨rfl, h, -⟩ | ⟨rfl, -, h⟩
      · rw [h]; rfl
      · exact ext_exit_enter _ _ _ (by decide) hv1 hv0 (by omega)
    · rcases release_shape s hinv 2 (by decide) (by decide) r s1 t1 hstep with
        ⟨rfl, h, -⟩ | ⟨rfl, -, h⟩
      · rw [h]; rfl
      · exact ext_exit_enter _ _ _ (by decide) hv1 hv0 (by omega)
    · rcases release_shape s hinv 1 (by decide) (by decide) r s1 t1 hstep with
        ⟨rfl, h, -⟩ | ⟨rfl, -, h⟩
      · rw [h]; rfl
      · exact ext_exit_enter _ _ _ (by decide) hv1 hv0 (by omega)
    · obtain ⟨a, b, c3, -, -, -, rfl⟩ := hinv
      rw [set_boost_reset_gen] at hstep
      simp only [Option.some.injEq, Prod.mk.injEq] at hstep
      obtain ⟨-, rfl, rfl⟩ := hstep
      by_cases ha1 : a > 0 <;> by_cases hb1 : b > 0 <;> by_cases hc1 : c3 > 0 <;>
        simp [pick, ha1, hb1, hc1, (show ∀ x : Int, (x ≥ 1) = (x > 0) from fun x => by
          simp only [ge_iff_le, gt_iff_lt, eq_iff_iff]; omega)] <;> decide
    · rcases request_shape s hinv 1 (by decide) (by decide) (hmax (by decide)) r s1 t1 hstep with
        ⟨rfl, h⟩ | ⟨rfl, -, -⟩
      · rw [h]; rfl
      · exact ext_exit_enter _ _ _ hv0 hv1 hv0 (Or.inl rfl)
    · rcases request_shape s hinv 2 (by decide) (by decide) (hmax (by decide)) r s1 t1 hstep with
        ⟨rfl, h⟩ | ⟨rfl, -, -⟩
      · rw [h]; rfl
      · exact ext_exit_enter _ _ _ hv0 hv1 hv0 (Or.inl rfl)
    · rcases request_shape s hinv 3 (by decide) (by decide) (hmax (by decide)) r s1 t1 hstep with
        ⟨rfl, h⟩ | ⟨rfl, -, -⟩
      · rw [h]; rfl
      · exact ext_exit_enter _ _ _ hv0 hv1 hv0 (Or.inl rfl)
  · rw [invalid_step c hv s] at hstep
    simp only [Option.some.injEq, Prod.mk.injEq] at hstep
    obtain ⟨-, rfl, rfl⟩ := hstep
    rfl

/-- Every run shorter than `2^31` commands completes in a state bounded by its
length, and its hooks take the initial outside state to the outside state of
the effective mode. -/
theorem ext_run (cmds : List Int) (hlen : cmds.length < 2147483648) :
    ∃ s tr, run cmds init = some (s, tr) ∧ Bounded cmds.length s ∧
      run_hooks tr ext_init = some (ext_of s.sched_boost_val) :=
  bounded_run_invariant
    (fun _ s tr => run_hooks tr ext_init = some (ext_of s.sched_boost_val)) rfl
    (fun _ s tr c r s1 t1 hB hn hP hstep => by
      show run_hooks (tr ++ t1) ext_init = some (ext_of s1.sched_boost_val)
      have hP2 : run_hooks tr ext_init = some (ext_of s.sched_boost_val) := hP
      rw [run_hooks_append, hP2]
      exact ext_step s (bounded_inv _ (le_of_lt hn) s hB) c r s1 t1
        (fun _ => bounded_not_max _ hn s hB c) hstep) cmds hlen

/-- A request of an elevated mode whose refcount is at least 0 and below
`INT_MAX`, followed by its release, gives the state back. -/
theorem request_release_state (s : State) (hinv : Inv s) (M : Int) (h1 : 1 ≤ M) (h3 : M ≤ 3)
    (rc : Int) (hget : tbl_get s.sched_boosts M = some rc) (h0 : 0 ≤ rc) (hmax : rc < INT_MAX) :
    ∃ s1 t1 t2, sched_set_boost M s = some (0, s1, t1) ∧ Inv s1 ∧
      sched_set_boost (-M) s1 = some (0, s, t2) := by
  obtain ⟨a, b, c, ha, hb, hc, rfl⟩ := hinv
  obtain ⟨hp0, hp3⟩ := pick_range a b c
  have h4 := tbl_get_four _ _ _ _ _ _ hget
  have hM : M = 1 ∨ M = 2 ∨ M = 3 := by omega
  simp only [INT_MIN, INT_MAX] at ha hb hc hmax
  rcases hM with rfl | rfl | rfl
  · obtain rfl : rc = a := by omega
    have e2 : ∃ t2, sched_set_boost (-1) ⟨[0, rc + 1, b, c], pick (rc + 1) b c, pick (rc + 1) b c⟩ =
        some (0, ⟨[0, rc, b, c], pick rc b c, pick rc b c⟩, t2) := by
      rw [set_boost_release1, if_neg (by omega)]
      simp
    obtain ⟨t2, e2⟩ := e2
    exact ⟨_, _, t2, set_boost_request1 _ _ _ _ _ _ hp0 hp3 ha.1 hmax,
      ⟨rc + 1, b, c, by simp only [INT_MIN, INT_MAX]; omega, hb, hc, rfl⟩, e2⟩
  · obtain rfl : rc = b := by omega
    have e2 : ∃ t2, sched_set_boost (-2) ⟨[0, a, rc + 1, c], pick a (rc + 1) c, pick a (rc + 1) c⟩ =
        some (0, ⟨[0, a, rc, c], pick a rc c, pick a rc c⟩, t2) := by
      rw [set_boost_release2, if_neg (by omega)]
      simp
    obtain ⟨t2, e2⟩ := e2
    exact ⟨_, _, t2, set_boost_request2 _ _ _ _ _ _ hp0 hp3 hb.1 hmax,
      ⟨a, rc + 1, c, ha, by simp only [INT_MIN, INT_MAX]; omega, hc, rfl⟩, e2⟩
  · obtain rfl : rc = c := by omega
    have e2 : ∃ t2, sched_set_boost (-3) ⟨[0, a, b, rc + 1], pick a b (rc + 1), pick a b (rc + 1)⟩ =
        some (0, ⟨[0, a, b, rc], pick a b rc, pick a b rc⟩, t2) := by
      rw [set_boost_release3, if_neg (by omega)]
      simp
    obtain ⟨t2, e2⟩ := e2
    exact ⟨_, _, t2, set_boost_request3 _ _ _ _ _ _ hp0 hp3 hc.1 hmax,
      ⟨a, b, rc + 1, ha, hb, by simp only [INT_MIN, INT_MAX]; omega, rfl⟩, e2⟩

/-- A completed run extended by one completed call. -/
theorem run_snoc_eq (cmds : List Int) (c : Int) (s s1 : State) (t1 : List Hook) (r : Int)
    (s2 : State) (t2 : List Hook) (h1 : run cmds s = some (s1, t1))
    (h2 : sched_set_boost c s1 = some (r, s2, t2)) :
    run (cmds ++ [c]) s = some (s2, t1 ++ t2) := by
  rw [run_snoc, h1]
  simp only [h2]

/-- The run of `k` requests of the full throttle mode, for `1 ≤ k ≤ INT_MAX`:
the refcount is `k` and only the first request ran hooks. -/
theorem run_requests (k : Nat) (hk1 : 1 ≤ k) (hk : k ≤ 2147483647) :
    run (List.replicate k 1) init =
      some (⟨[0, (k : Int), 0, 0], 1, 1⟩, [Hook.exit 0, Hook.enter 1]) := by
  induction k, hk1 using Nat.le_induction with
  | base => rfl
  | succ k hk1 ih =>
    have h := set_boost_request1 0 (k : Int) 0 0 1 1 (by decide) (by decide)
      (by simp only [INT_MIN]; omega) (by simp only [INT_MAX]; omega)
    have hp : pick ((k : Int) + 1) 0 0 = 1 := by
      simp only [pick]
      rw [if_pos (by omega)]
    rw [hp, if_neg (by omega)] at h
    have hcast : ((k + 1 : Nat) : Int) = (k : Int) + 1 := by omega
    rw [List.replicate_succ', hcast]
    exact run_snoc_eq _ 1 init _ _ 0 _ [] (ih (by omega)) h

/-- The state after `INT_MAX` requests of the full throttle mode. -/
theorem run_int_max :
    run (List.replicate 2147483647 1) init =
      some (⟨[0, 2147483647, 0, 0], 1, 1⟩, [Hook.exit 0, Hook.enter 1]) := by
  have h := run_requests 2147483647 (by decide) (le_refl _)
  rw [show ((2147483647 : Nat) : Int) = 2147483647 from rfl] at h
  exact h

/-- The state after `2^31` requests of the full throttle mode: the refcount has
wrapped to `INT_MIN`, no hook ran at the wrap, and the baseline is published. -/
theorem run_int_min :
    run (List.replicate 2147483648 1) init =
      some (⟨[0, -2147483648, 0, 0], 0, 0⟩, [Hook.exit 0, Hook.enter 1]) := by
  have e : List.replicate 2147483648 (1 : Int) = List.replicate 2147483647 1 ++ [1] :=
    List.replicate_succ' 2147483647 1
  have h : sched_set_boost 1 ⟨[0, 2147483647, 0, 0], 1, 1⟩ =
      some (0, ⟨[0, -2147483648, 0, 0], 0, 0⟩, []) := by decide
  rw [e]
  exact run_snoc_eq _ 1 init _ _ 0 _ [] run_int_max h

/-- The state with the full throttle refcount at `INT_MAX` is reachable. -/
theorem reachable_int_max : Reachable ⟨[0, 2147483647, 0, 0], 1, 1⟩ :=
  ⟨List.replicate 2147483647 1, _, run_int_max⟩

/-- The state with the full throttle refcount at `INT_MIN` is reachable. -/
theorem reachable_int_min : Reachable ⟨[0, -2147483648, 0, 0], 0, 0⟩ :=
  ⟨List.replicate 2147483648 1, _, run_int_min⟩

/-- A request of an elevated mode whose refcount is `INT_MAX` invokes no hook. -/
theorem request_wrap_hooks (s : State) (hinv : Inv s) (M : Int) (h1 : 1 ≤ M) (h3 : M ≤ 3)
    (hmax : tbl_get s.sched_boosts M = some INT_MAX) (r : Int) (s1 : State) (t1 : List Hook)
    (hstep : sched_set_boost M s = some (r, s1, t1)) : t1 = [] := by
  obtain ⟨a, b, c3, ha, hb, hc3, rfl⟩ := hinv
  obtain ⟨hp0, hp3⟩ := pick_range a b c3
  have h4 := tbl_get_four _ _ _ _ _ _ hmax
  simp only [INT_MAX] at h4
  have hM : M = 1 ∨ M = 2 ∨ M = 3 := by omega
  rcases hM with rfl | rfl | rfl
  · obtain rfl : a = 2147483647 := by omega
    rw [set_boost_request1_wrap _ _ _ _ _ hp0 hp3] at hstep
    simp only [Option.some.injEq, Prod.mk.injEq] at hstep
    exact hstep.2.2.symm
  · obtain rfl : b = 2147483647 := by omega
    rw [set_boost_request2_wrap _ _ _ _ _ hp0 hp3] at hstep
    simp only [Option.some.injEq, Prod.mk.injEq] at hstep
    exact hstep.2.2.symm
  · obtain rfl : c3 = 2147483647 := by omega
    rw [set_boost_request3_wrap _ _ _ _ _ hp0 hp3] at hstep
    simp only [Option.some.injEq, Prod.mk.injEq] at hstep
    exact hstep.2.2.symm

/-- A run shorter than `2^31` commands ends in a state bounded by its length. -/
theorem short_run_bounded (cmds : List Int) (s : State) (tr : List Hook)
    (hlen : cmds.length < 2147483648) (hrun : run cmds init = some (s, tr)) :
    Bounded cmds.length s := by
  obtain ⟨s2, tr2, hrun2, hB, -⟩ :=
    bounded_run_invariant (fun _ _ _ => True) trivial (fun _ _ _ _ _ _ _ _ _ _ _ => trivial)
      cmds hlen
  rw [hrun] at hrun2
  simp only [Option.some.injEq, Prod.mk.injEq] at hrun2
  obtain ⟨rfl, -⟩ := hrun2
  exact hB

/-- After fewer than `2^31` commands no refcount is negative. -/
theorem short_run_nonneg (cmds : List Int) (s : State) (tr : List Hook)
    (hlen : cmds.length < 2147483648) (hrun : run cmds init = some (s, tr)) (i rc : Int)
    (hget : tbl_get s.sched_boosts i = some rc) : 0 ≤ rc := by
  obtain ⟨a, b, c, ha, hb, hc, rfl⟩ := short_run_bounded cmds s tr hlen hrun
  have h4 := tbl_get_four _ _ _ _ _ _ hget
  omega

/-- After fewer than `2^31 - 1` commands no refcount is `INT_MAX`. -/
theorem short_run_not_max (cmds : List Int) (s : State) (tr : List Hook)
    (hlen : cmds.length + 1 < 2147483648) (hrun : run cmds init = some (s, tr)) (i : Int) :
    tbl_get s.sched_boosts i ≠ some INT_MAX :=
  bounded_not_max _ (by simp only [INT_MAX]; omega) s
    (short_run_bounded cmds s tr (by omega) hrun) i

/-! ## The claims -/

/-- C1, counterexample (invariant 1 as stated): after `2^31` requests of the
full throttle mode its refcount has wrapped to `INT_MIN`; `sched_boost_val` is
`NO_BOOST` although the elevated refcounts are not all 0. -/
theorem C1_counterexample :
    run (List.replicate 2147483648 1) init =
      some (⟨[0, -2147483648, 0, 0], NO_BOOST, NO_BOOST⟩, [Hook.exit 0, Hook.enter 1]) ∧
    ¬ IsHighestActive [0, -2147483648, 0, 0] NO_BOOST ∧
    ¬ (∀ (cmds : List Int) (s : State) (tr : List Hook), run cmds init = some (s, tr) →
        IsHighestActive s.sched_boosts s.sched_boost_val) := by
  have hno : ¬ IsHighestActive [0, -2147483648, 0, 0] NO_BOOST := by
    rintro (⟨-, h⟩ | ⟨h, -⟩)
    · have h1 := h 1 (by decide) (by decide)
      revert h1
      decide
    · revert h
      decide
  exact ⟨run_int_min, hno, fun h => hno (h _ _ _ run_int_min)⟩

/-- C1, amended (invariant 1): after every sequence of commands passed to
`sched_set_boost` from the initial state, the run completes and
`sched_boost_val` is what `sched_effective_boost` returns on the current table:
the elevated mode of lowest index with refcount at least 1, or `NO_BOOST` when no
elevated mode has a refcount of at least 1. For a sequence of fewer than `2^31`
commands that is the case exactly when all elevated refcounts are 0. -/
theorem C1_effective_is_highest_active (cmds : List Int) :
    ∃ s tr, run cmds init = some (s, tr) ∧
      sched_effective_boost s.sched_boosts = some s.sched_boost_val ∧
      IsFirstActive s.sched_boosts s.sched_boost_val ∧
      (cmds.length < 2147483648 → IsHighestActive s.sched_boosts s.sched_boost_val) := by
  obtain ⟨s, tr, hrun, hinv, -⟩ :=
    run_invariant (fun _ _ _ => True) trivial (fun _ _ _ _ _ _ _ _ _ _ => trivial) cmds
  refine ⟨s, tr, hrun, ?_, ?_, ?_⟩
  · obtain ⟨a, b, c, -, -, -, rfl⟩ := hinv
    exact eff_four 0 a b c
  · obtain ⟨a, b, c, -, -, -, rfl⟩ := hinv
    exact pick_first 0 a b c
  · intro hlen
    obtain ⟨s2, tr2, hrun2, hB, -⟩ :=
      bounded_run_invariant (fun _ _ _ => True) trivial (fun _ _ _ _ _ _ _ _ _ _ _ => trivial)
        cmds hlen
    rw [hrun] at hrun2
    simp only [Option.some.injEq, Prod.mk.injEq] at hrun2
    obtain ⟨rfl, -⟩ := hrun2
    obtain ⟨a, b, c, ha, hb, hc, rfl⟩ := hB
    exact pick_highest 0 a b c ha.1 hb.1 hc.1

/-- Witness of C1 (amended): after `request(3); request(1); release(3)` the
full throttle mode is the only requested one and it is the effective mode. -/
theorem C1_effective_is_highest_active_witness :
    run [3, 1, -3] init =
        some (⟨[0, 1, 0, 0], 1, 1⟩,
          [Hook.exit 0, Hook.enter 3, Hook.exit 3, Hook.enter 1, Hook.exit 3, Hook.enter 1]) ∧
    ∃ s tr, run [3, 1, -3] init = some (s, tr) ∧
      sched_effective_boost s.sched_boosts = some s.sched_boost_val ∧
      IsFirstActive s.sched_boosts s.sched_boost_val ∧
      IsHighestActive s.sched_boosts s.sched_boost_val := by
  obtain ⟨s, tr, h1, h2, h3, h4⟩ := C1_effective_is_highest_active [3, 1, -3]
  exact ⟨by decide, s, tr, h1, h2, h3, h4 (by decide)⟩

/-- C2 (invalid mode): in every reachable state `sched_set_boost type` returns;
the return value is `-EINVAL` exactly when `type` is outside
`RESTRAINED_BOOST_DISABLE .. RESTRAINED_BOOST` (that is `-3 .. 3`) and 0
otherwise; when it is `-EINVAL` the state (every refcount, `sched_boost_val`,
`sysctl_sched_boost`) is unchanged and no hook was invoked. -/
theorem C2_invalid_mode (s : State) (hs : Reachable s) (type : Int) :
    ∃ r s1 tr, sched_set_boost type s = some (r, s1, tr) ∧
      (r = -EINVAL ↔ (type < RESTRAINED_BOOST_DISABLE ∨ RESTRAINED_BOOST < type)) ∧
      (r ≠ -EINVAL → r = 0) ∧
      (r = -EINVAL → s1 = s ∧ tr = []) := by
  obtain ⟨r, s1, tr, hstep, -⟩ := step_inv s (reachable_inv s hs) type
  refine ⟨r, s1, tr, hstep, ?_⟩
  unfold sched_set_boost at hstep
  by_cases hv : verify_boost_params type = true
  · rw [if_pos hv] at hstep
    have hr : r = 0 := by
      cases h : _sched_set_boost type s with
      | none => rw [h] at hstep; cases hstep
      | some p => rw [h] at hstep; obtain ⟨s2, t2⟩ := p; simp at hstep; omega
    simp only [verify_boost_params, Bool.and_eq_true, decide_eq_true_eq] at hv
    subst hr
    refine ⟨?_, fun _ => rfl, ?_⟩
    · simp only [EINVAL]
      constructor
      · intro h; omega
      · intro h; omega
    · intro h; simp [EINVAL] at h
  · rw [if_neg hv] at hstep
    simp only [Option.some.injEq, Prod.mk.injEq] at hstep
    obtain ⟨rfl, rfl, rfl⟩ := hstep
    simp only [verify_boost_params, Bool.and_eq_true, decide_eq_true_eq] at hv
    refine ⟨?_, fun h => absurd rfl h, fun _ => ⟨rfl, rfl⟩⟩
    constructor
    · intro _; omega
    · intro _; rfl

/-- Witness of C2: the out-of-range request 5 in the initial state. -/
theorem C2_invalid_mode_witness :
    sched_set_boost 5 init = some (-22, init, []) ∧
    ∃ r s1 tr, sched_set_boost 5 init = some (r, s1, tr) ∧
      (r = -EINVAL ↔ ((5 : Int) < RESTRAINED_BOOST_DISABLE ∨ RESTRAINED_BOOST < 5)) ∧
      (r ≠ -EINVAL → r = 0) ∧
      (r = -EINVAL → s1 = init ∧ tr = []) :=
  ⟨by decide, C2_invalid_mode init reachable_init 5⟩

/-- C4 (invariant 3): after every sequence of fewer than `2^31` commands from
the initial state the run completes and every refcount of the table is at least
0; it is also at most the number of commands, so that no counter has left the
range of a C `int` and the counters are those of unbounded integers. -/
theorem C4_refcount_nonneg (cmds : List Int) (hlen : cmds.length < 2147483648) :
    ∃ s tr, run cmds init = some (s, tr) ∧
      ∀ i rc, tbl_get s.sched_boosts i = some rc → 0 ≤ rc ∧ rc ≤ cmds.length := by
  obtain ⟨s, tr, hrun, ⟨a, b, c, ha, hb, hc, rfl⟩, -⟩ :=
    bounded_run_invariant (fun _ _ _ => True) trivial (fun _ _ _ _ _ _ _ _ _ _ _ => trivial)
      cmds hlen
  refine ⟨_, tr, hrun, ?_⟩
  intro i rc hi
  have h4 := tbl_get_four 0 a b c i rc hi
  have hl : (0 : Int) ≤ cmds.length := Int.natCast_nonneg _
  omega

/-- Witness of C4: after two requests and two releases of the full throttle
mode followed by one more release, its refcount is 0, not negative. -/
theorem C4_refcount_nonneg_witness :
    run [1, 1, -1, -1, -1] init =
        some (⟨[0, 0, 0, 0], 0, 0⟩, [Hook.exit 0, Hook.enter 1, Hook.exit 1, Hook.enter 0]) ∧
    ∃ s tr, run [1, 1, -1, -1, -1] init = some (s, tr) ∧
      ∀ i rc, tbl_get s.sched_boosts i = some rc →
        0 ≤ rc ∧ rc ≤ ([1, 1, -1, -1, -1] : List Int).length :=
  ⟨by decide, C4_refcount_nonneg [1, 1, -1, -1, -1] (by decide)⟩

/-- C5 (priority correctness): for elevated modes `A` of higher priority than
`B`, in every reachable state where both have refcount at least 1 and no mode of
higher priority than `A` is requested, the effective mode is `A`; and from the
initial state the two orders `request(A); request(B)` and
`request(B); request(A)` both end with effective mode `A` and the same
refcounts. -/
theorem C5_priority_correctness (A B : Int) (hA : FULL_THROTTLE_BOOST ≤ A) (hAB : A < B)
    (hB : B ≤ RESTRAINED_BOOST) :
    (∀ s, Reachable s →
      (∃ rA, tbl_get s.sched_boosts A = some rA ∧ 1 ≤ rA) →
      (∃ rB, tbl_get s.sched_boosts B = some rB ∧ 1 ≤ rB) →
      (∀ j r, FULL_THROTTLE_BOOST ≤ j → j < A → tbl_get s.sched_boosts j = some r → r < 1) →
      s.sched_boost_val = A) ∧
    (∃ s1 t1 s2 t2, run [A, B] init = some (s1, t1) ∧ run [B, A] init = some (s2, t2) ∧
      s1.sched_boost_val = A ∧ s2.sched_boost_val = A ∧ s1.sched_boosts = s2.sched_boosts) := by
  simp only [FULL_THROTTLE_BOOST, RESTRAINED_BOOST] at hA hB ⊢
  have hcases : (A = 1 ∧ B = 2) ∨ (A = 1 ∧ B = 3) ∨ (A = 2 ∧ B = 3) := by omega
  constructor
  · intro s hs hrA hrB hno
    obtain ⟨a, b, c, ha, hb, hc, rfl⟩ := reachable_inv s hs
    obtain ⟨rA, hgA, hA1⟩ := hrA
    rcases hcases with ⟨rfl, rfl⟩ | ⟨rfl, rfl⟩ | ⟨rfl, rfl⟩
    · have h := tbl_get_four _ _ _ _ _ _ hgA
      show pick a b c = 1
      unfold pick
      split_ifs <;> omega
    · have h := tbl_get_four _ _ _ _ _ _ hgA
      show pick a b c = 1
      unfold pick
      split_ifs <;> omega
    · have h := tbl_get_four _ _ _ _ _ _ hgA
      have h1 := hno 1 a (by decide) (by decide) (by simp [tbl_get])
      show pick a b c = 2
      unfold pick
      split_ifs <;> omega
  · rcases hcases with ⟨rfl, rfl⟩ | ⟨rfl, rfl⟩ | ⟨rfl, rfl⟩
    · exact ⟨⟨[0, 1, 1, 0], 1, 1⟩, _, ⟨[0, 1, 1, 0], 1, 1⟩, _, rfl, rfl, rfl, rfl, rfl⟩
    · exact ⟨⟨[0, 1, 0, 1], 1, 1⟩, _, ⟨[0, 1, 0, 1], 1, 1⟩, _, rfl, rfl, rfl, rfl, rfl⟩
    · exact ⟨⟨[0, 0, 1, 1], 2, 2⟩, _, ⟨[0, 0, 1, 1], 2, 2⟩, _, rfl, rfl, rfl, rfl, rfl⟩

/-- Witness of C5: conservative (2) and restrained (3) requested, full throttle
not; the state is the one reached by `request(3); request(2)`. -/
theorem C5_priority_correctness_witness :
    run [3, 2] init = some (⟨[0, 0, 1, 1], 2, 2⟩,
        [Hook.exit 0, Hook.enter 3, Hook.exit 3, Hook.enter 2]) ∧
      (⟨[0, 0, 1, 1], 2, 2⟩ : State).sched_boost_val = CONSERVATIVE_BOOST :=
  ⟨by decide,
    (C5_priority_correctness 2 3 (by decide) (by decide) (by decide)).1 ⟨[0, 0, 1, 1], 2, 2⟩
      ⟨[3, 2], _, rfl⟩ ⟨1, by decide, by decide⟩ ⟨1, by decide, by decide⟩
      (fun j r h1 h2 hg => by
        have hj : j = 1 := by simp only [FULL_THROTTLE_BOOST] at h1; omega
        subst hj
        simp [tbl_get] at hg
        omega)⟩

/-- C6, counterexample (reset completeness as stated): after `2^31` requests
of the full throttle mode its refcount is `INT_MIN`; the reset skips it (it is
not above 0) and the refcount is still `INT_MIN` afterwards, not 0. -/
theorem C6_counterexample :
    run (List.replicate 2147483648 1) init =
      some (⟨[0, -2147483648, 0, 0], 0, 0⟩, [Hook.exit 0, Hook.enter 1]) ∧
    sched_set_boost 0 ⟨[0, -2147483648, 0, 0], 0, 0⟩ =
      some (0, ⟨[0, -2147483648, 0, 0], 0, 0⟩, []) ∧
    ¬ (∀ s, Reachable s → ∀ r s1 tr, sched_set_boost 0 s = some (r, s1, tr) →
        ∀ i, FULL_THROTTLE_BOOST ≤ i → i ≤ RESTRAINED_BOOST →
          tbl_get s1.sched_boosts i = some 0) := by
  have hreset : sched_set_boost 0 ⟨[0, -2147483648, 0, 0], 0, 0⟩ =
      some (0, ⟨[0, -2147483648, 0, 0], 0, 0⟩, []) := by decide
  refine ⟨run_int_min, hreset, ?_⟩
  intro h
  have h1 := h _ reachable_int_min 0 _ _ hreset 1 (by decide) (by decide)
  revert h1
  decide

/-- C6, amended (reset completeness): in every reachable state
`sched_set_boost(0)` succeeds and leaves `sched_boost_val = NO_BOOST`, and a
release of any elevated mode right after it succeeds, invokes no hook and
changes nothing; every elevated refcount is 0 after the reset provided no
elevated refcount was negative before it, and so in every state reached by
fewer than `2^31` commands. -/
theorem C6_reset_completeness (s : State) (hs : Reachable s) :
    ∃ s1 tr, sched_set_boost 0 s = some (0, s1, tr) ∧
      ((∀ i rc, FULL_THROTTLE_BOOST ≤ i → i ≤ RESTRAINED_BOOST →
          tbl_get s.sched_boosts i = some rc → 0 ≤ rc) →
        ∀ i, FULL_THROTTLE_BOOST ≤ i → i ≤ RESTRAINED_BOOST →
          tbl_get s1.sched_boosts i = some 0) ∧
      (∀ cmds t0, run cmds init = some (s, t0) → cmds.length < 2147483648 →
        ∀ i, FULL_THROTTLE_BOOST ≤ i → i ≤ RESTRAINED_BOOST →
          tbl_get s1.sched_boosts i = some 0) ∧
      s1.sched_boost_val = NO_BOOST ∧
      ∀ M, FULL_THROTTLE_BOOST ≤ M → M ≤ RESTRAINED_BOOST →
        sched_set_boost (-M) s1 = some (0, s1, []) := by
  have hshort : ∀ cmds t0, run cmds init = some (s, t0) → cmds.length < 2147483648 →
      ∀ i rc, tbl_get s.sched_boosts i = some rc → 0 ≤ rc :=
    fun cmds t0 hrun hlen i rc hg => short_run_nonneg cmds s t0 hlen hrun i rc hg
  obtain ⟨a, b, c, ha, hb, hc, rfl⟩ := reachable_inv s hs
  have hxa : (if a > 0 then 0 else a) ≤ 0 := by split_ifs <;> omega
  have hxb : (if b > 0 then 0 else b) ≤ 0 := by split_ifs <;> omega
  have hxc : (if c > 0 then 0 else c) ≤ 0 := by split_ifs <;> omega
  have key : ∀ x y z : Int, x ≤ 0 → y ≤ 0 → z ≤ 0 → ∀ M : Int, 1 ≤ M → M ≤ 3 →
      sched_set_boost (-M) ⟨[0, x, y, z], 0, 0⟩ = some (0, ⟨[0, x, y, z], 0, 0⟩, []) := by
    intro x y z hx hy hz M h1 h3
    have hp : pick x y z = 0 := by
      simp only [pick]
      split_ifs <;> omega
    have hM : M = 1 ∨ M = 2 ∨ M = 3 := by omega
    rcases hM with rfl | rfl | rfl
    · rw [set_boost_release1, if_pos hx, if_neg (by omega), hp]
    · rw [set_boost_release2, if_pos hy, if_neg (by omega), hp]
    · rw [set_boost_release3, if_pos hz, if_neg (by omega), hp]
  have hzero : (∀ i rc, FULL_THROTTLE_BOOST ≤ i → i ≤ RESTRAINED_BOOST →
      tbl_get [0, a, b, c] i = some rc → 0 ≤ rc) →
      ∀ i, FULL_THROTTLE_BOOST ≤ i → i ≤ RESTRAINED_BOOST →
        tbl_get [0, if a > 0 then 0 else a, if b > 0 then 0 else b,
          if c > 0 then 0 else c] i = some 0 := by
    intro hnn i h1 h3
    simp only [FULL_THROTTLE_BOOST, RESTRAINED_BOOST] at h1 h3 hnn
    have ha0 := hnn 1 a (by decide) (by decide) (by simp [tbl_get])
    have hb0 := hnn 2 b (by decide) (by decide) (by simp [tbl_get])
    have hc0 := hnn 3 c (by decide) (by decide) (by simp [tbl_get])
    have ea : (if a > 0 then 0 else a) = 0 := by split_ifs <;> omega
    have eb : (if b > 0 then 0 else b) = 0 := by split_ifs <;> omega
    have ec : (if c > 0 then 0 else c) = 0 := by split_ifs <;> omega
    rw [ea, eb, ec]
    have hi : i = 1 ∨ i = 2 ∨ i = 3 := by omega
    rcases hi with rfl | rfl | rfl <;> simp [tbl_get]
  refine ⟨_, _, set_boost_reset_gen _ _ _ _ _ _, hzero, ?_, rfl, ?_⟩
  · intro cmds t0 hrun hlen
    exact hzero (fun i rc _ _ hg => hshort cmds t0 hrun hlen i rc hg)
  · intro M h1 h3
    simp only [FULL_THROTTLE_BOOST, RESTRAINED_BOOST] at h1 h3
    exact key _ _ _ hxa hxb hxc M h1 h3

/-- Witness of C6 (amended): the reset after `request(CONSERVATIVE)`; `exit(2)`
fires, every elevated refcount is 0 and the state is the initial one again. -/
theorem C6_reset_completeness_witness :
    run [2] init = some (⟨[0, 0, 1, 0], 2, 2⟩, [Hook.exit 0, Hook.enter 2]) ∧
    sched_set_boost 0 ⟨[0, 0, 1, 0], 2, 2⟩ = some (0, init, [Hook.exit 2]) ∧
    ∃ s1 tr, sched_set_boost 0 ⟨[0, 0, 1, 0], 2, 2⟩ = some (0, s1, tr) ∧
      (∀ i, FULL_THROTTLE_BOOST ≤ i → i ≤ RESTRAINED_BOOST →
        tbl_get s1.sched_boosts i = some 0) ∧
      s1.sched_boost_val = NO_BOOST ∧
      ∀ M, FULL_THROTTLE_BOOST ≤ M → M ≤ RESTRAINED_BOOST →
        sched_set_boost (-M) s1 = some (0, s1, []) := by
  obtain ⟨s1, tr, h1, -, h2, h3, h4⟩ :=
    C6_reset_completeness ⟨[0, 0, 1, 0], 2, 2⟩ ⟨[2], _, rfl⟩
  have hrun : run [2] init = some (⟨[0, 0, 1, 0], 2, 2⟩, [Hook.exit 0, Hook.enter 2]) := by
    decide
  exact ⟨hrun, by decide, s1, tr, h1, h2 [2] _ hrun (by decide), h3, h4⟩

/-- C7 (refcount floor): in every reachable state, for an elevated mode `M`
whose refcount is 0, the release `sched_set_boost(-M)` returns 0, invokes no hook
and leaves the whole state (refcounts, effective mode) unchanged. -/
theorem C7_refcount_floor (s : State) (hs : Reachable s) (M : Int)
    (h1 : FULL_THROTTLE_BOOST ≤ M) (h3 : M ≤ RESTRAINED_BOOST)
    (h0 : tbl_get s.sched_boosts M = some 0) :
    sched_set_boost (-M) s = some (0, s, []) := by
  obtain ⟨a, b, c, ha, hb, hc, rfl⟩ := reachable_inv s hs
  simp only [FULL_THROTTLE_BOOST, RESTRAINED_BOOST] at h1 h3
  have hM : M = 1 ∨ M = 2 ∨ M = 3 := by omega
  have h4 := tbl_get_four _ _ _ _ _ _ h0
  rcases hM with rfl | rfl | rfl
  · obtain rfl : a = 0 := by omega
    rw [set_boost_release1]
    simp
  · obtain rfl : b = 0 := by omega
    rw [set_boost_release2]
    simp
  · obtain rfl : c = 0 := by omega
    rw [set_boost_release3]
    simp

/-- Witness of C7: releasing the restrained mode (refcount 0) while the full
throttle mode is requested. -/
theorem C7_refcount_floor_witness :
    sched_set_boost (-3) ⟨[0, 1, 0, 0], 1, 1⟩ = some (0, ⟨[0, 1, 0, 0], 1, 1⟩, []) :=
  C7_refcount_floor ⟨[0, 1, 0, 0], 1, 1⟩ ⟨[1], _, rfl⟩ 3 (by decide) (by decide)
    (by decide)

/-- C8 (single enter/exit per transition): in every reachable state and for
every command, `sched_set_boost` returns, and in the hooks of that one call the
enter hook of each mode occurs at most once, the exit hook of each mode occurs
at most once, and every enter that is not the first hook of the call comes
right after an exit. -/
theorem C8_single_enter_exit (s : State) (hs : Reachable s) (c : Int) :
    ∃ r s1 tr, sched_set_boost c s = some (r, s1, tr) ∧
      (∀ m, tr.count (Hook.enter m) ≤ 1 ∧ tr.count (Hook.exit m) ≤ 1) ∧
      (∀ k m, tr.get? (k + 1) = some (Hook.enter m) → ∃ x, tr.get? k = some (Hook.exit x)) := by
  have hinv := reachable_inv s hs
  obtain ⟨r, s1, tr, hstep, -⟩ := step_inv s hinv c
  refine ⟨r, s1, tr, hstep, ?_⟩
  by_cases hc : c = 0
  · subst hc
    obtain ⟨a, b, c3, ha, hb, hc3, rfl⟩ := hinv
    rw [set_boost_reset_gen] at hstep
    simp only [Option.some.injEq, Prod.mk.injEq] at hstep
    obtain ⟨-, -, rfl⟩ := hstep
    constructor
    · intro m
      by_cases ha1 : a > 0 <;> by_cases hb1 : b > 0 <;> by_cases hc1 : c3 > 0 <;>
        simp [ha1, hb1, hc1, List.count_cons] <;> split_ifs <;> omega
    · intro k m hk
      exfalso
      by_cases ha1 : a > 0 <;> by_cases hb1 : b > 0 <;> by_cases hc1 : c3 > 0 <;>
        simp only [ha1, hb1, hc1, if_true, if_false, List.append_nil, List.nil_append,
          List.singleton_append] at hk <;>
        rcases k with _ | _ | _ | k <;> simp at hk
  · rcases nonreset_hooks s hinv c hc r s1 tr hstep with rfl | ⟨x, y, rfl, -, -⟩
    · simp
    · constructor
      · intro m
        simp [List.count_cons]
        constructor <;> split_ifs <;> omega
      · intro k m hk
        rcases k with _ | k
        · exact ⟨x, rfl⟩
        · simp at hk

/-- Witness of C8: the release of the full throttle mode while the conservative
mode is requested runs `exit(1)` then `enter(2)`. -/
theorem C8_single_enter_exit_witness :
    sched_set_boost (-1) ⟨[0, 1, 1, 0], 1, 1⟩ =
        some (0, ⟨[0, 0, 1, 0], 2, 2⟩, [Hook.exit 1, Hook.enter 2]) ∧
    ∃ r s1 tr, sched_set_boost (-1) ⟨[0, 1, 1, 0], 1, 1⟩ = some (r, s1, tr) ∧
      (∀ m, tr.count (Hook.enter m) ≤ 1 ∧ tr.count (Hook.exit m) ≤ 1) ∧
      (∀ k m, tr.get? (k + 1) = some (Hook.enter m) → ∃ x, tr.get? k = some (Hook.exit x)) :=
  ⟨by decide, C8_single_enter_exit ⟨[0, 1, 1, 0], 1, 1⟩ ⟨[1, 2], _, rfl⟩ (-1)⟩

/-- C9 (release transition): in every reachable state and for every elevated
mode `M`, the release `sched_set_boost(-M)` succeeds and invokes hooks exactly
when the refcount of `M` was 1; in that case the hooks are `exit(M)` then
`enter(C)`, where `C` is the new effective mode `sched_boost_val`, the mode of
highest priority with refcount at least 1 in the table in which the count of `M`
has become 0 and the other counts are unchanged (the baseline if no elevated
mode has a refcount of at least 1). -/
theorem C9_release_transition (s : State) (hs : Reachable s) (M : Int)
    (h1 : FULL_THROTTLE_BOOST ≤ M) (h3 : M ≤ RESTRAINED_BOOST) :
    ∃ rc s1 tr, tbl_get s.sched_boosts M = some rc ∧
      sched_set_boost (-M) s = some (0, s1, tr) ∧
      (tr ≠ [] ↔ rc = 1) ∧
      (rc = 1 →
        tr = [Hook.exit M, Hook.enter s1.sched_boost_val] ∧
        tbl_get s1.sched_boosts M = some 0 ∧
        (∀ j, j ≠ M → tbl_get s1.sched_boosts j = tbl_get s.sched_boosts j) ∧
        IsFirstActive s1.sched_boosts s1.sched_boost_val) := by
  obtain ⟨a, b, c, ha, hb, hc, rfl⟩ := reachable_inv s hs
  simp only [FULL_THROTTLE_BOOST, RESTRAINED_BOOST] at h1 h3
  have hM : M = 1 ∨ M = 2 ∨ M = 3 := by omega
  rcases hM with rfl | rfl | rfl
  · refine ⟨a, _, _, by simp [tbl_get], set_boost_release1 _ _ _ _ _ _, ?_, ?_⟩
    · by_cases h : a = 1 <;> simp [h]
    · rintro rfl
      refine ⟨by simp, by simp [tbl_get], ?_, ?_⟩
      · intro j hj
        simpa using tbl_frame1 0 1 0 b c j hj
      · simpa using pick_first 0 0 b c
  · refine ⟨b, _, _, by simp [tbl_get], set_boost_release2 _ _ _ _ _ _, ?_, ?_⟩
    · by_cases h : b = 1 <;> simp [h]
    · rintro rfl
      refine ⟨by simp, by simp [tbl_get], ?_, ?_⟩
      · intro j hj
        simpa using tbl_frame2 0 a 1 0 c j hj
      · simpa using pick_first 0 a 0 c
  · refine ⟨c, _, _, by simp [tbl_get], set_boost_release3 _ _ _ _ _ _, ?_, ?_⟩
    · by_cases h : c = 1 <;> simp [h]
    · rintro rfl
      refine ⟨by simp, by simp [tbl_get], ?_, ?_⟩
      · intro j hj
        simpa using tbl_frame3 0 a b 1 0 j hj
      · simpa using pick_first 0 a b 0

/-- Witness of C9, the scenario of the claim: after `request(FULL_THROTTLE)`,
`request(CONSERVATIVE)`, the release of full throttle runs `exit(1)`, `enter(2)`
and makes conservative effective; the release of conservative then runs
`exit(2)`, `enter(0)` and makes the baseline effective. -/
theorem C9_release_transition_witness :
    run [1, 2] init = some (⟨[0, 1, 1, 0], 1, 1⟩, [Hook.exit 0, Hook.enter 1]) ∧
    sched_set_boost (-1) ⟨[0, 1, 1, 0], 1, 1⟩ =
      some (0, ⟨[0, 0, 1, 0], 2, 2⟩, [Hook.exit 1, Hook.enter 2]) ∧
    sched_set_boost (-2) ⟨[0, 0, 1, 0], 2, 2⟩ =
      some (0, ⟨[0, 0, 0, 0], 0, 0⟩, [Hook.exit 2, Hook.enter 0]) ∧
    ∃ rc s1 tr, tbl_get [0, 1, 1, 0] 1 = some rc ∧
      sched_set_boost (-1) ⟨[0, 1, 1, 0], 1, 1⟩ = some (0, s1, tr) ∧
      (tr ≠ [] ↔ rc = 1) ∧
      (rc = 1 →
        tr = [Hook.exit 1, Hook.enter s1.sched_boost_val] ∧
        tbl_get s1.sched_boosts 1 = some 0 ∧
        (∀ j, j ≠ 1 → tbl_get s1.sched_boosts j = tbl_get [0, 1, 1, 0] j) ∧
        IsFirstActive s1.sched_boosts s1.sched_boost_val) :=
  ⟨by decide, by decide, by decide,
    C9_release_transition ⟨[0, 1, 1, 0], 1, 1⟩ ⟨[1, 2], _, rfl⟩ 1 (by decide) (by decide)⟩

/-- C10, counterexample (request transition as stated): after `INT_MAX`
requests of the full throttle mode one more request does not raise its refcount
by one: the count wraps to `INT_MIN`, no hook runs, and the effective mode
changes from full throttle to the baseline. -/
theorem C10_counterexample :
    run (List.replicate 2147483647 1) init =
      some (⟨[0, 2147483647, 0, 0], 1, 1⟩, [Hook.exit 0, Hook.enter 1]) ∧
    sched_set_boost 1 ⟨[0, 2147483647, 0, 0], 1, 1⟩ =
      some (0, ⟨[0, -2147483648, 0, 0], 0, 0⟩, []) ∧
    ¬ (∀ s, Reachable s → ∀ M, FULL_THROTTLE_BOOST ≤ M → M ≤ RESTRAINED_BOOST →
        ∀ rc s1 tr, tbl_get s.sched_boosts M = some rc →
          sched_set_boost M s = some (0, s1, tr) →
          tbl_get s1.sched_boosts M = some (rc + 1) ∧
            (tr = [] → s1.sched_boost_val = s.sched_boost_val)) := by
  have hstep : sched_set_boost 1 ⟨[0, 2147483647, 0, 0], 1, 1⟩ =
      some (0, ⟨[0, -2147483648, 0, 0], 0, 0⟩, []) := by decide
  refine ⟨run_int_max, hstep, ?_⟩
  intro h
  have h1 := (h _ reachable_int_max 1 (by decide) (by decide) 2147483647 _ _ (by decide)
    hstep).2 rfl
  revert h1
  decide

/-- C10, amended (request transition): in every reachable state and for every
elevated mode `M` whose refcount is not `INT_MAX`, the request
`sched_set_boost(M)` succeeds and raises the refcount of `M` by one, leaving the other counts alone; with `cand`
the recomputed candidate (the result of `sched_effective_boost`, the mode of
highest priority with refcount at least 1), hooks are invoked exactly when the
refcount of `M` was 0 and `cand` differs from the previous effective mode; then
the hooks are `exit(previous effective mode)`, `enter(cand)` and the effective
mode becomes `cand`; otherwise no hook runs and the effective mode is
unchanged. After fewer than `2^31 - 1` commands no refcount is `INT_MAX`. -/
theorem C10_request_transition (s : State) (hs : Reachable s) (M : Int)
    (h1 : FULL_THROTTLE_BOOST ≤ M) (h3 : M ≤ RESTRAINED_BOOST) :
    (tbl_get s.sched_boosts M ≠ some INT_MAX →
      ∃ rc s1 tr cand, tbl_get s.sched_boosts M = some rc ∧
      sched_set_boost M s = some (0, s1, tr) ∧
      tbl_get s1.sched_boosts M = some (rc + 1) ∧
      (∀ j, j ≠ M → tbl_get s1.sched_boosts j = tbl_get s.sched_boosts j) ∧
      sched_effective_boost s1.sched_boosts = some cand ∧
      IsFirstActive s1.sched_boosts cand ∧
      (tr ≠ [] ↔ (rc = 0 ∧ cand ≠ s.sched_boost_val)) ∧
      ((rc = 0 ∧ cand ≠ s.sched_boost_val) →
        tr = [Hook.exit s.sched_boost_val, Hook.enter cand] ∧ s1.sched_boost_val = cand) ∧
      (¬ (rc = 0 ∧ cand ≠ s.sched_boost_val) →
        tr = [] ∧ s1.sched_boost_val = s.sched_boost_val)) ∧
    (∀ cmds t0, run cmds init = some (s, t0) → cmds.length + 1 < 2147483648 →
      ∀ i, tbl_get s.sched_boosts i ≠ some INT_MAX) := by
  refine ⟨fun hmax => ?_, fun cmds t0 hrun hlen i => short_run_not_max cmds s t0 hlen hrun i⟩
  obtain ⟨a, b, c, ha, hb, hc, rfl⟩ := reachable_inv s hs
  obtain ⟨hp0, hp3⟩ := pick_range a b c
  simp only [INT_MIN, INT_MAX] at ha hb hc hmax
  simp only [FULL_THROTTLE_BOOST, RESTRAINED_BOOST] at h1 h3
  have hM : M = 1 ∨ M = 2 ∨ M = 3 := by omega
  rcases hM with rfl | rfl | rfl
  · refine ⟨a, _, _, pick (a + 1) b c, by simp [tbl_get],
      set_boost_request1 _ _ _ _ _ _ hp0 hp3 ha.1
        (by simp only [INT_MAX]; simp [tbl_get] at hmax; omega), by simp [tbl_get],
      fun j hj => tbl_frame1 0 a (a + 1) b c j hj, eff_four _ _ _ _,
      pick_first 0 (a + 1) b c, ?_, ?_, ?_⟩
    · by_cases h : a = 0 ∧ pick (a + 1) b c ≠ pick a b c
      · simp only [if_pos h]
        exact ⟨fun _ => h, fun _ => by simp⟩
      · simp only [if_neg h]
        exact ⟨fun h2 => absurd rfl h2, fun h2 => absurd h2 h⟩
    · intro h
      exact ⟨by simp only [if_pos h], rfl⟩
    · intro h
      refine ⟨by simp only [if_neg h], ?_⟩
      by_cases h0 : a = 0
      · by_contra h2
        exact h ⟨h0, h2⟩
      · show pick (a + 1) b c = pick a b c
        simp only [pick]
        split_ifs <;> omega
  · refine ⟨b, _, _, pick a (b + 1) c, by simp [tbl_get],
      set_boost_request2 _ _ _ _ _ _ hp0 hp3 hb.1
        (by simp only [INT_MAX]; simp [tbl_get] at hmax; omega), by simp [tbl_get],
      fun j hj => tbl_frame2 0 a b (b + 1) c j hj, eff_four _ _ _ _,
      pick_first 0 a (b + 1) c, ?_, ?_, ?_⟩
    · by_cases h : b = 0 ∧ pick a (b + 1) c ≠ pick a b c
      · simp only [if_pos h]
        exact ⟨fun _ => h, fun _ => by simp⟩
      · simp only [if_neg h]
        exact ⟨fun h2 => absurd rfl h2, fun h2 => absurd h2 h⟩
    · intro h
      exact ⟨by simp only [if_pos h], rfl⟩
    · intro h
      refine ⟨by simp only [if_neg h], ?_⟩
      by_cases h0 : b = 0
      · by_contra h2
        exact h ⟨h0, h2⟩
      · show pick a (b + 1) c = pick a b c
        simp only [pick]
        split_ifs <;> omega
  · refine ⟨c, _, _, pick a b (c + 1), by simp [tbl_get],
      set_boost_request3 _ _ _ _ _ _ hp0 hp3 hc.1
        (by simp only [INT_MAX]; simp [tbl_get] at hmax; omega), by simp [tbl_get],
      fun j hj => tbl_frame3 0 a b c (c + 1) j hj, eff_four _ _ _ _,
      pick_first 0 a b (c + 1), ?_, ?_, ?_⟩
    · by_cases h : c = 0 ∧ pick a b (c + 1) ≠ pick a b c
      · simp only [if_pos h]
        exact ⟨fun _ => h, fun _ => by simp⟩
      · simp only [if_neg h]
        exact ⟨fun h2 => absurd rfl h2, fun h2 => absurd h2 h⟩
    · intro h
      exact ⟨by simp only [if_pos h], rfl⟩
    · intro h
      refine ⟨by simp only [if_neg h], ?_⟩
      by_cases h0 : c = 0
      · by_contra h2
        exact h ⟨h0, h2⟩
      · show pick a b (c + 1) = pick a b c
        simp only [pick]
        split_ifs <;> omega

/-- Witness of C10 (amended): with the restrained mode effective, the first request of
the conservative mode runs `exit(3)`, `enter(2)` and makes conservative
effective. -/
theorem C10_request_transition_witness :
    sched_set_boost 2 ⟨[0, 0, 0, 1], 3, 3⟩ =
      some (0, ⟨[0, 0, 1, 1], 2, 2⟩, [Hook.exit 3, Hook.enter 2]) ∧
    ∃ rc s1 tr cand, tbl_get [0, 0, 0, 1] 2 = some rc ∧
      sched_set_boost 2 ⟨[0, 0, 0, 1], 3, 3⟩ = some (0, s1, tr) ∧
      tbl_get s1.sched_boosts 2 = some (rc + 1) ∧
      (∀ j, j ≠ 2 → tbl_get s1.sched_boosts j = tbl_get [0, 0, 0, 1] j) ∧
      sched_effective_boost s1.sched_boosts = some cand ∧
      IsFirstActive s1.sched_boosts cand ∧
      (tr ≠ [] ↔ (rc = 0 ∧ cand ≠ 3)) ∧
      ((rc = 0 ∧ cand ≠ 3) →
        tr = [Hook.exit 3, Hook.enter cand] ∧ s1.sched_boost_val = cand) ∧
      (¬ (rc = 0 ∧ cand ≠ 3) → tr = [] ∧ s1.sched_boost_val = 3) :=
  ⟨by decide,
    (C10_request_transition ⟨[0, 0, 0, 1], 3, 3⟩ ⟨[3], _, rfl⟩ 2 (by decide) (by decide)).1
      (by decide)⟩

/-- C11 (idempotent double activation): for an elevated mode `M`, in every
reachable state where the refcount of `M` is 0, two requests of `M` in a row
succeed and leave the refcount of `M` at 2, with `enter(M)` invoked at most once
over both calls and no hook in the second call; a release of `M` after them
succeeds, leaves the refcount of `M` at 1, invokes no hook and leaves the
effective mode unchanged. From the initial state the two requests invoke
`enter(M)` exactly once. -/
theorem C11_double_activation (M : Int) (h1 : FULL_THROTTLE_BOOST ≤ M)
    (h3 : M ≤ RESTRAINED_BOOST) :
    (∀ s, Reachable s → tbl_get s.sched_boosts M = some 0 →
      ∃ s1 t1 s2 t2 s3 t3, sched_set_boost M s = some (0, s1, t1) ∧
        sched_set_boost M s1 = some (0, s2, t2) ∧
        tbl_get s2.sched_boosts M = some 2 ∧
        (t1 ++ t2).count (Hook.enter M) ≤ 1 ∧ t2 = [] ∧
        sched_set_boost (-M) s2 = some (0, s3, t3) ∧
        tbl_get s3.sched_boosts M = some 1 ∧ t3 = [] ∧
        s3.sched_boost_val = s2.sched_boost_val) ∧
    (∃ s2 tr, run [M, M] init = some (s2, tr) ∧ tr.count (Hook.enter M) = 1 ∧
      tbl_get s2.sched_boosts M = some 2) := by
  simp only [FULL_THROTTLE_BOOST, RESTRAINED_BOOST] at h1 h3
  have hM : M = 1 ∨ M = 2 ∨ M = 3 := by omega
  constructor
  · intro s hs h0
    obtain ⟨a, b, c, ha, hb, hc, rfl⟩ := reachable_inv s hs
    obtain ⟨hp0, hp3⟩ := pick_range a b c
    have h4 := tbl_get_four _ _ _ _ _ _ h0
    rcases hM with rfl | rfl | rfl
    · obtain rfl : a = 0 := by omega
      have hq := pick_range 1 b c
      have e1 : sched_set_boost 1 ⟨[0, 0, b, c], pick 0 b c, pick 0 b c⟩ =
          some (0, ⟨[0, 1, b, c], pick 1 b c, pick 1 b c⟩,
            if (0 : Int) = 0 ∧ pick 1 b c ≠ pick 0 b c then
              [Hook.exit (pick 0 b c), Hook.enter (pick 1 b c)]
            else []) := by
        rw [set_boost_request1 _ _ _ _ _ _ hp0 hp3 (by decide) (by decide)]
        simp
      have e2 : sched_set_boost 1 ⟨[0, 1, b, c], pick 1 b c, pick 1 b c⟩ =
          some (0, ⟨[0, 2, b, c], pick 2 b c, pick 2 b c⟩, []) := by
        rw [set_boost_request1 _ _ _ _ _ _ hq.1 hq.2 (by decide) (by decide)]
        simp
      have e3 : sched_set_boost (-1) ⟨[0, 2, b, c], pick 2 b c, pick 2 b c⟩ =
          some (0, ⟨[0, 1, b, c], pick 1 b c, pick 1 b c⟩, []) := by
        rw [set_boost_release1]
        simp
      refine ⟨_, _, _, _, _, _, e1, e2, by simp [tbl_get], ?_, rfl, e3, by simp [tbl_get], rfl,
        by simp [pick]⟩
      rw [List.append_nil]
      exact count_enter_ite _ _ _ _
    · obtain rfl : b = 0 := by omega
      have hq := pick_range a 1 c
      have e1 : sched_set_boost 2 ⟨[0, a, 0, c], pick a 0 c, pick a 0 c⟩ =
          some (0, ⟨[0, a, 1, c], pick a 1 c, pick a 1 c⟩,
            if (0 : Int) = 0 ∧ pick a 1 c ≠ pick a 0 c then
              [Hook.exit (pick a 0 c), Hook.enter (pick a 1 c)]
            else []) := by
        rw [set_boost_request2 _ _ _ _ _ _ hp0 hp3 (by decide) (by decide)]
        simp
      have e2 : sched_set_boost 2 ⟨[0, a, 1, c], pick a 1 c, pick a 1 c⟩ =
          some (0, ⟨[0, a, 2, c], pick a 2 c, pick a 2 c⟩, []) := by
        rw [set_boost_request2 _ _ _ _ _ _ hq.1 hq.2 (by decide) (by decide)]
        simp
      have e3 : sched_set_boost (-2) ⟨[0, a, 2, c], pick a 2 c, pick a 2 c⟩ =
          some (0, ⟨[0, a, 1, c], pick a 1 c, pick a 1 c⟩, []) := by
        rw [set_boost_release2]
        simp
      refine ⟨_, _, _, _, _, _, e1, e2, by simp [tbl_get], ?_, rfl, e3, by simp [tbl_get], rfl,
        by simp [pick]⟩
      rw [List.append_nil]
      exact count_enter_ite _ _ _ _
    · obtain rfl : c = 0 := by omega
      have hq := pick_range a b 1
      have e1 : sched_set_boost 3 ⟨[0, a, b, 0], pick a b 0, pick a b 0⟩ =
          some (0, ⟨[0, a, b, 1], pick a b 1, pick a b 1⟩,
            if (0 : Int) = 0 ∧ pick a b 1 ≠ pick a b 0 then
              [Hook.exit (pick a b 0), Hook.enter (pick a b 1)]
            else []) := by
        rw [set_boost_request3 _ _ _ _ _ _ hp0 hp3 (by decide) (by decide)]
        simp
      have e2 : sched_set_boost 3 ⟨[0, a, b, 1], pick a b 1, pick a b 1⟩ =
          some (0, ⟨[0, a, b, 2], pick a b 2, pick a b 2⟩, []) := by
        rw [set_boost_request3 _ _ _ _ _ _ hq.1 hq.2 (by decide) (by decide)]
        simp
      have e3 : sched_set_boost (-3) ⟨[0, a, b, 2], pick a b 2, pick a b 2⟩ =
          some (0, ⟨[0, a, b, 1], pick a b 1, pick a b 1⟩, []) := by
        rw [set_boost_release3]
        simp
      refine ⟨_, _, _, _, _, _, e1, e2, by simp [tbl_get], ?_, rfl, e3, by simp [tbl_get], rfl,
        by simp [pick]⟩
      rw [List.append_nil]
      exact count_enter_ite _ _ _ _
  · rcases hM with rfl | rfl | rfl
    · exact ⟨_, _, rfl, by decide, by decide⟩
    · exact ⟨_, _, rfl, by decide, by decide⟩
    · exact ⟨_, _, rfl, by decide, by decide⟩

/-- Witness of C11: the conservative mode requested twice and released once
while the full throttle mode is effective; no hook runs at all. -/
theorem C11_double_activation_witness :
    (∃ s1 t1 s2 t2 s3 t3, sched_set_boost 2 ⟨[0, 1, 0, 0], 1, 1⟩ = some (0, s1, t1) ∧
        sched_set_boost 2 s1 = some (0, s2, t2) ∧
        tbl_get s2.sched_boosts 2 = some 2 ∧
        (t1 ++ t2).count (Hook.enter 2) ≤ 1 ∧ t2 = [] ∧
        sched_set_boost (-2) s2 = some (0, s3, t3) ∧
        tbl_get s3.sched_boosts 2 = some 1 ∧ t3 = [] ∧
        s3.sched_boost_val = s2.sched_boost_val) ∧
    (∃ s2 tr, run [2, 2] init = some (s2, tr) ∧ tr.count (Hook.enter 2) = 1 ∧
      tbl_get s2.sched_boosts 2 = some 2) :=
  ⟨(C11_double_activation 2 (by decide) (by decide)).1 ⟨[0, 1, 0, 0], 1, 1⟩ ⟨[1], _, rfl⟩
      (by decide),
    (C11_double_activation 2 (by decide) (by decide)).2⟩

/-- C12, counterexample (reset hook sequence as stated): the reset after
`request(CONSERVATIVE)` runs `exit(2)` and nothing else; the enter hook of the
baseline is not invoked. -/
theorem C12_counterexample :
    run [2] init = some (⟨[0, 0, 1, 0], 2, 2⟩, [Hook.exit 0, Hook.enter 2]) ∧
    sched_set_boost 0 ⟨[0, 0, 1, 0], 2, 2⟩ = some (0, ⟨[0, 0, 0, 0], 0, 0⟩, [Hook.exit 2]) ∧
    ¬ (∀ s, Reachable s → ∀ r s1 tr, sched_set_boost 0 s = some (r, s1, tr) →
        tr = ([FULL_THROTTLE_BOOST, CONSERVATIVE_BOOST, RESTRAINED_BOOST].filter
          (requested s.sched_boosts)).map Hook.exit ++ [Hook.enter NO_BOOST]) := by
  refine ⟨by decide, by decide, ?_⟩
  intro h
  have h1 := h ⟨[0, 0, 1, 0], 2, 2⟩ ⟨[2], _, rfl⟩ 0 ⟨[0, 0, 0, 0], 0, 0⟩ [Hook.exit 2] (by decide)
  revert h1
  decide

/-- C12, amended (reset hook sequence): in every reachable state
`sched_set_boost(0)` succeeds, its hooks are exactly the exit hooks of the
elevated modes with refcount above 0, in the order full throttle, conservative,
restrained; no enter hook is invoked, not that of the baseline either; and the
effective mode is the baseline afterwards. -/
theorem C12_reset_hooks (s : State) (hs : Reachable s) :
    ∃ s1 tr, sched_set_boost 0 s = some (0, s1, tr) ∧
      tr = ([FULL_THROTTLE_BOOST, CONSERVATIVE_BOOST, RESTRAINED_BOOST].filter
        (requested s.sched_boosts)).map Hook.exit ∧
      (∀ m, Hook.enter m ∉ tr) ∧
      s1.sched_boost_val = NO_BOOST := by
  obtain ⟨a, b, c, ha, hb, hc, rfl⟩ := reachable_inv s hs
  refine ⟨_, _, set_boost_reset_gen _ _ _ _ _ _, ?_, ?_, rfl⟩
  · by_cases ha1 : a > 0 <;> by_cases hb1 : b > 0 <;> by_cases hc1 : c > 0 <;>
      simp [ha1, hb1, hc1, requested, tbl_get, FULL_THROTTLE_BOOST, CONSERVATIVE_BOOST,
        RESTRAINED_BOOST, List.filter]
  · intro m
    by_cases ha1 : a > 0 <;> by_cases hb1 : b > 0 <;> by_cases hc1 : c > 0 <;>
      simp [ha1, hb1, hc1]

/-- Witness of C12 (amended): with full throttle and restrained requested, the
reset runs `exit(1)` then `exit(3)`. -/
theorem C12_reset_hooks_witness :
    run [1, 3] init = some (⟨[0, 1, 0, 1], 1, 1⟩, [Hook.exit 0, Hook.enter 1]) ∧
    sched_set_boost 0 ⟨[0, 1, 0, 1], 1, 1⟩ =
      some (0, ⟨[0, 0, 0, 0], 0, 0⟩, [Hook.exit 1, Hook.exit 3]) ∧
    ∃ s1 tr, sched_set_boost 0 ⟨[0, 1, 0, 1], 1, 1⟩ = some (0, s1, tr) ∧
      tr = ([FULL_THROTTLE_BOOST, CONSERVATIVE_BOOST, RESTRAINED_BOOST].filter
        (requested [0, 1, 0, 1])).map Hook.exit ∧
      (∀ m, Hook.enter m ∉ tr) ∧
      s1.sched_boost_val = NO_BOOST :=
  ⟨by decide, by decide, C12_reset_hooks ⟨[0, 1, 0, 1], 1, 1⟩ ⟨[1, 3], _, rfl⟩⟩

/-- C13, counterexample (enter exactness as stated): with full throttle
effective and conservative requested, the release of conservative runs
`exit(2)`, `enter(1)`: the enter hook of full throttle is invoked although full
throttle was already the effective mode; and the reset from full throttle makes
the baseline effective without invoking its enter hook. And after `INT_MAX`
requests of the full throttle mode one more request makes the baseline effective
without invoking any hook. -/
theorem C13_counterexample :
    run [1, 2] init = some (⟨[0, 1, 1, 0], 1, 1⟩, [Hook.exit 0, Hook.enter 1]) ∧
    sched_set_boost (-2) ⟨[0, 1, 1, 0], 1, 1⟩ =
      some (0, ⟨[0, 1, 0, 0], 1, 1⟩, [Hook.exit 2, Hook.enter 1]) ∧
    sched_set_boost 0 ⟨[0, 1, 1, 0], 1, 1⟩ =
      some (0, ⟨[0, 0, 0, 0], 0, 0⟩, [Hook.exit 1, Hook.exit 2]) ∧
    ¬ (∀ s, Reachable s → ∀ c, verify_boost_params c = true → ∀ M r s1 tr,
        sched_set_boost c s = some (r, s1, tr) →
        (Hook.enter M ∈ tr ↔ (M ≠ s.sched_boost_val ∧ M = s1.sched_boost_val))) ∧
    run (List.replicate 2147483647 1) init =
      some (⟨[0, 2147483647, 0, 0], 1, 1⟩, [Hook.exit 0, Hook.enter 1]) ∧
    sched_set_boost 1 ⟨[0, 2147483647, 0, 0], 1, 1⟩ =
      some (0, ⟨[0, -2147483648, 0, 0], 0, 0⟩, []) ∧
    ¬ (∀ s, Reachable s → ∀ c, 0 < c → verify_boost_params c = true → ∀ M r s1 tr,
        sched_set_boost c s = some (r, s1, tr) →
        M ≠ s.sched_boost_val → M = s1.sched_boost_val → Hook.enter M ∈ tr) := by
  have hstep : sched_set_boost 1 ⟨[0, 2147483647, 0, 0], 1, 1⟩ =
      some (0, ⟨[0, -2147483648, 0, 0], 0, 0⟩, []) := by decide
  refine ⟨by decide, by decide, by decide, ?_, run_int_max, hstep, ?_⟩
  · intro h
    have h1 := (h ⟨[0, 1, 1, 0], 1, 1⟩ ⟨[1, 2], _, rfl⟩ (-2) (by decide) 1 0
      ⟨[0, 1, 0, 0], 1, 1⟩ [Hook.exit 2, Hook.enter 1] (by decide)).1 (by decide)
    exact h1.1 rfl
  · intro h
    have h1 := h _ reachable_int_max 1 (by decide) (by decide) 0 0 _ _ hstep (by decide) rfl
    cases h1

/-- C13, amended (enter hook): in every reachable state, for every valid
command and every mode `M`, the call succeeds and `enter(M)` is invoked only if
`M` is the effective mode after the call. For a request of a mode whose refcount
is not `INT_MAX`, `enter(M)` is invoked exactly when `M` was not the effective mode before the
call and is the effective mode after it. For a release of mode `R`, `enter(M)`
is invoked exactly when the refcount of `R` was 1 and `M` is the effective mode
after the call, whether or not `M` was effective before. A reset invokes no
enter hook. So a transition of `M` from not effective to effective comes with
`enter(M)` for every release and for every request of a mode whose refcount is
not `INT_MAX`; and after fewer than `2^31 - 1` commands no refcount is
`INT_MAX`. -/
theorem C13_enter_hook (s : State) (hs : Reachable s) (c : Int)
    (hc : verify_boost_params c = true) (M : Int) :
    (∃ s1 tr, sched_set_boost c s = some (0, s1, tr) ∧
      (Hook.enter M ∈ tr → M = s1.sched_boost_val) ∧
      (c ≠ 0 → (0 < c → tbl_get s.sched_boosts c ≠ some INT_MAX) →
        M ≠ s.sched_boost_val → M = s1.sched_boost_val → Hook.enter M ∈ tr) ∧
      (0 < c → tbl_get s.sched_boosts c ≠ some INT_MAX →
        (Hook.enter M ∈ tr ↔ (M ≠ s.sched_boost_val ∧ M = s1.sched_boost_val))) ∧
      (c < 0 → (Hook.enter M ∈ tr ↔
        (tbl_get s.sched_boosts (-c) = some 1 ∧ M = s1.sched_boost_val))) ∧
      (c = 0 → Hook.enter M ∉ tr)) ∧
    (∀ cmds t0, run cmds init = some (s, t0) → cmds.length + 1 < 2147483648 →
      ∀ i, tbl_get s.sched_boosts i ≠ some INT_MAX) := by
  refine ⟨?_, fun cmds t0 hrun hlen i => short_run_not_max cmds s t0 hlen hrun i⟩
  have hinv := reachable_inv s hs
  obtain ⟨s1, tr, hstep, -⟩ := valid_step s hinv c hc
  refine ⟨s1, tr, hstep, ?_⟩
  have h7 := verify_cases c hc
  by_cases h0 : c = 0
  · subst h0
    obtain ⟨a, b, c3, ha, hb, hc3, rfl⟩ := hinv
    rw [set_boost_reset_gen] at hstep
    simp only [Option.some.injEq, Prod.mk.injEq, true_and] at hstep
    obtain ⟨rfl, rfl⟩ := hstep
    have hno : Hook.enter M ∉ (if a > 0 then [Hook.exit 1] else []) ++
        (if b > 0 then [Hook.exit 2] else []) ++ (if c3 > 0 then [Hook.exit 3] else []) := by
      by_cases ha1 : a > 0 <;> by_cases hb1 : b > 0 <;> by_cases hc1 : c3 > 0 <;>
        simp [ha1, hb1, hc1]
    exact ⟨fun h => absurd h hno, fun h => absurd rfl h, fun h => absurd h (by decide),
      fun h => absurd h (by decide), fun _ => hno⟩
  · by_cases hpos : 0 < c
    · by_cases hm : tbl_get s.sched_boosts c = some INT_MAX
      · obtain rfl := request_wrap_hooks s hinv c (by omega) (by omega) hm 0 s1 _ hstep
        exact ⟨by simp, fun _ h => absurd hm (h hpos), fun _ h => absurd hm h,
          fun h => absurd hpos (by omega), fun h => absurd h h0⟩
      have hshape := request_shape s hinv c (by omega) (by omega) hm 0 s1 tr hstep
      rcases hshape with ⟨rfl, hv⟩ | ⟨rfl, hv, hlt⟩
      · refine ⟨by simp, ?_, ?_, fun h => absurd hpos (by omega), fun h => absurd h h0⟩
        · intro _ _ h1 h2
          exact absurd (h2.trans hv) h1
        · intro _ _
          simp only [List.not_mem_nil, false_iff, not_and]
          intro h1 h2
          exact h1 (h2.trans hv)
      · have hne : s1.sched_boost_val ≠ s.sched_boost_val := by omega
        have hmem : Hook.enter M ∈ [Hook.exit s.sched_boost_val, Hook.enter s1.sched_boost_val] ↔
            M = s1.sched_boost_val := by simp
        refine ⟨hmem.1, fun _ _ _ h2 => hmem.2 h2, ?_, fun h => absurd hpos (by omega),
          fun h => absurd h h0⟩
        intro _ _
        rw [hmem]
        constructor
        · intro h
          exact ⟨by rw [h]; exact hne, h⟩
        · intro h
          exact h.2
    · have hneg : c < 0 := by omega
      have hshape := release_shape s hinv (-c) (by omega) (by omega) 0 s1 tr
        (by rw [neg_neg]; exact hstep)
      rcases hshape with ⟨rfl, hv, hrc⟩ | ⟨rfl, hrc, hcase⟩
      · refine ⟨by simp, ?_, fun h => absurd h hpos, ?_, fun h => absurd h h0⟩
        · intro _ _ h1 h2
          exact absurd (h2.trans hv) h1
        · intro _
          simp only [List.not_mem_nil, false_iff, not_and]
          intro h1
          exact absurd h1 hrc
      · have hmem : Hook.enter M ∈ [Hook.exit (-c), Hook.enter s1.sched_boost_val] ↔
            M = s1.sched_boost_val := by simp
        refine ⟨hmem.1, fun _ _ _ h2 => hmem.2 h2, fun h => absurd h hpos, ?_,
          fun h => absurd h h0⟩
        intro _
        rw [hmem]
        exact ⟨fun h => ⟨hrc, h⟩, fun h => h.2⟩

/-- Witness of C13 (amended): the release of conservative while full throttle
is effective; `enter(1)` is invoked and full throttle is effective afterwards. -/
theorem C13_enter_hook_witness :
    sched_set_boost (-2) ⟨[0, 1, 1, 0], 1, 1⟩ =
      some (0, ⟨[0, 1, 0, 0], 1, 1⟩, [Hook.exit 2, Hook.enter 1]) ∧
    ∃ s1 tr, sched_set_boost (-2) ⟨[0, 1, 1, 0], 1, 1⟩ = some (0, s1, tr) ∧
      (Hook.enter 1 ∈ tr → (1 : Int) = s1.sched_boost_val) ∧
      (Hook.enter 1 ∈ tr ↔
        (tbl_get [0, 1, 1, 0] (- -2) = some 1 ∧ (1 : Int) = s1.sched_boost_val)) ∧
      ((-2 : Int) = 0 → Hook.enter 1 ∉ tr) := by
  obtain ⟨⟨s1, tr, h1, h2, -, -, h5, h6⟩, -⟩ :=
    C13_enter_hook ⟨[0, 1, 1, 0], 1, 1⟩ ⟨[1, 2], _, rfl⟩ (-2) (by decide) 1
  exact ⟨by decide, s1, tr, h1, h2, h5 (by decide), h6⟩

/-- C14, counterexample (exit exactness as stated): with full throttle
effective and conservative requested, the release of conservative runs
`exit(2)`, `enter(1)`: the exit hook of conservative is invoked although
conservative was not the effective mode. And after `INT_MAX` requests of the
full throttle mode one more request makes the baseline effective without
invoking any hook. -/
theorem C14_counterexample :
    run [1, 2] init = some (⟨[0, 1, 1, 0], 1, 1⟩, [Hook.exit 0, Hook.enter 1]) ∧
    sched_set_boost (-2) ⟨[0, 1, 1, 0], 1, 1⟩ =
      some (0, ⟨[0, 1, 0, 0], 1, 1⟩, [Hook.exit 2, Hook.enter 1]) ∧
    ¬ (∀ s, Reachable s → ∀ c, verify_boost_params c = true → ∀ M r s1 tr,
        sched_set_boost c s = some (r, s1, tr) →
        (Hook.exit M ∈ tr ↔ (M = s.sched_boost_val ∧ M ≠ s1.sched_boost_val))) ∧
    run (List.replicate 2147483647 1) init =
      some (⟨[0, 2147483647, 0, 0], 1, 1⟩, [Hook.exit 0, Hook.enter 1]) ∧
    sched_set_boost 1 ⟨[0, 2147483647, 0, 0], 1, 1⟩ =
      some (0, ⟨[0, -2147483648, 0, 0], 0, 0⟩, []) ∧
    ¬ (∀ s, Reachable s → ∀ c, 0 < c → verify_boost_params c = true → ∀ M r s1 tr,
        sched_set_boost c s = some (r, s1, tr) →
        M = s.sched_boost_val → M ≠ s1.sched_boost_val → Hook.exit M ∈ tr) := by
  have hstep : sched_set_boost 1 ⟨[0, 2147483647, 0, 0], 1, 1⟩ =
      some (0, ⟨[0, -2147483648, 0, 0], 0, 0⟩, []) := by decide
  refine ⟨by decide, by decide, ?_, run_int_max, hstep, ?_⟩
  · intro h
    have h1 := (h ⟨[0, 1, 1, 0], 1, 1⟩ ⟨[1, 2], _, rfl⟩ (-2) (by decide) 2 0
      ⟨[0, 1, 0, 0], 1, 1⟩ [Hook.exit 2, Hook.enter 1] (by decide)).1 (by decide)
    exact absurd h1.1 (by decide)
  · intro h
    have h1 := h _ reachable_int_max 1 (by decide) (by decide) 1 0 _ _ hstep rfl (by decide)
    cases h1

/-- C14, amended (exit hook): in every reachable state, for every valid command
and every mode `M`, the call succeeds; except for the request of a mode whose
refcount is `INT_MAX`, `exit(M)` is invoked whenever `M` was the effective mode before the
call and is not after it; and when `exit(M)` is invoked, `M` is not the
effective mode after the call and was, before the call, the effective mode or a
mode with refcount above 0. For a request of a mode whose refcount is not
`INT_MAX`, `exit(M)` is invoked exactly when `M` was the effective mode before
the call and is not after it. For a release of mode `R`, `exit(M)` is invoked
exactly when `M` is `R` and its refcount was 1, whether or not `R` was
effective. For a reset, `exit(M)` is invoked exactly for the elevated modes `M`
with refcount above 0. After fewer than `2^31 - 1` commands no refcount is
`INT_MAX`. -/
theorem C14_exit_hook (s : State) (hs : Reachable s) (c : Int)
    (hc : verify_boost_params c = true) (M : Int) :
    (∃ s1 tr, sched_set_boost c s = some (0, s1, tr) ∧
      ((0 < c → tbl_get s.sched_boosts c ≠ some INT_MAX) →
        M = s.sched_boost_val → M ≠ s1.sched_boost_val → Hook.exit M ∈ tr) ∧
      (Hook.exit M ∈ tr → M ≠ s1.sched_boost_val ∧
        (M = s.sched_boost_val ∨ requested s.sched_boosts M = true)) ∧
      (0 < c → tbl_get s.sched_boosts c ≠ some INT_MAX →
        (Hook.exit M ∈ tr ↔ (M = s.sched_boost_val ∧ M ≠ s1.sched_boost_val))) ∧
      (c < 0 → (Hook.exit M ∈ tr ↔ (M = -c ∧ tbl_get s.sched_boosts M = some 1))) ∧
      (c = 0 → (Hook.exit M ∈ tr ↔
        (FULL_THROTTLE_BOOST ≤ M ∧ M ≤ RESTRAINED_BOOST ∧
          requested s.sched_boosts M = true)))) ∧
    (∀ cmds t0, run cmds init = some (s, t0) → cmds.length + 1 < 2147483648 →
      ∀ i, tbl_get s.sched_boosts i ≠ some INT_MAX) := by
  refine ⟨?_, fun cmds t0 hrun hlen i => short_run_not_max cmds s t0 hlen hrun i⟩
  have hinv := reachable_inv s hs
  obtain ⟨s1, tr, hstep, -⟩ := valid_step s hinv c hc
  refine ⟨s1, tr, hstep, ?_⟩
  have h7 := verify_cases c hc
  by_cases h0 : c = 0
  · subst h0
    obtain ⟨a, b, c3, ha, hb, hc3, rfl⟩ := hinv
    rw [set_boost_reset_gen] at hstep
    simp only [Option.some.injEq, Prod.mk.injEq, true_and] at hstep
    obtain ⟨rfl, rfl⟩ := hstep
    have hmem : Hook.exit M ∈ (if a > 0 then [Hook.exit 1] else []) ++
        (if b > 0 then [Hook.exit 2] else []) ++ (if c3 > 0 then [Hook.exit 3] else []) ↔
        ((M = 1 ∧ a > 0) ∨ (M = 2 ∧ b > 0) ∨ (M = 3 ∧ c3 > 0)) := by
      by_cases ha1 : a > 0 <;> by_cases hb1 : b > 0 <;> by_cases hc1 : c3 > 0 <;>
        simp [ha1, hb1, hc1]
    have hreq : (FULL_THROTTLE_BOOST ≤ M ∧ M ≤ RESTRAINED_BOOST ∧
        requested [0, a, b, c3] M = true) ↔
        ((M = 1 ∧ a > 0) ∨ (M = 2 ∧ b > 0) ∨ (M = 3 ∧ c3 > 0)) := by
      simp only [FULL_THROTTLE_BOOST, RESTRAINED_BOOST]
      constructor
      · rintro ⟨h1, h3, hr⟩
        have hM : M = 1 ∨ M = 2 ∨ M = 3 := by omega
        rcases hM with rfl | rfl | rfl <;> simp [requested, tbl_get] at hr <;> omega
      · rintro (⟨rfl, h⟩ | ⟨rfl, h⟩ | ⟨rfl, h⟩) <;> simp [requested, tbl_get, h]
    refine ⟨?_, ?_, fun h => absurd h (by decide), fun h => absurd h (by decide), ?_⟩
    · intro _ hv hne
      rw [hmem]
      show (M = 1 ∧ a > 0) ∨ (M = 2 ∧ b > 0) ∨ (M = 3 ∧ c3 > 0)
      have hv2 : M = pick a b c3 := hv
      have hne2 : M ≠ 0 := hne
      simp only [pick] at hv2
      split_ifs at hv2 <;> omega
    · intro h
      refine ⟨?_, Or.inr (hreq.2 (hmem.1 h)).2.2⟩
      show M ≠ 0
      have := hmem.1 h
      omega
    · intro _
      rw [hmem, hreq]
  · by_cases hpos : 0 < c
    · by_cases hm : tbl_get s.sched_boosts c = some INT_MAX
      · obtain rfl := request_wrap_hooks s hinv c (by omega) (by omega) hm 0 s1 _ hstep
        exact ⟨fun h => absurd hm (h hpos), by simp, fun _ h => absurd hm h,
          fun h => absurd hpos (by omega), fun h => absurd h h0⟩
      have hshape := request_shape s hinv c (by omega) (by omega) hm 0 s1 tr hstep
      rcases hshape with ⟨rfl, hv⟩ | ⟨rfl, hv, hlt⟩
      · refine ⟨?_, by simp, ?_, fun h => absurd hpos (by omega), fun h => absurd h h0⟩
        · intro _ h1 h2
          exact absurd (h1.trans hv.symm) h2
        · intro _ _
          simp only [List.not_mem_nil, false_iff, not_and, not_not]
          intro h1
          exact h1.trans hv.symm
      · have hne : s.sched_boost_val ≠ s1.sched_boost_val := by omega
        have hmem : Hook.exit M ∈ [Hook.exit s.sched_boost_val, Hook.enter s1.sched_boost_val] ↔
            M = s.sched_boost_val := by simp
        refine ⟨fun _ h _ => hmem.2 h, ?_, ?_, fun h => absurd hpos (by omega),
          fun h => absurd h h0⟩
        · intro h
          have := hmem.1 h
          exact ⟨by rw [this]; exact hne, Or.inl this⟩
        · intro _ _
          rw [hmem]
          exact ⟨fun h => ⟨h, by rw [h]; exact hne⟩, fun h => h.1⟩
    · have hneg : c < 0 := by omega
      have hshape := release_shape s hinv (-c) (by omega) (by omega) 0 s1 tr
        (by rw [neg_neg]; exact hstep)
      rcases hshape with ⟨rfl, hv, hrc⟩ | ⟨rfl, hrc, hcase⟩
      · refine ⟨?_, by simp, fun h => absurd h hpos, ?_, fun h => absurd h h0⟩
        · intro _ h1 h2
          exact absurd (h1.trans hv.symm) h2
        · intro _
          simp only [List.not_mem_nil, false_iff, not_and]
          intro h1 h2
          rw [h1] at h2
          exact hrc h2
      · have hmem : Hook.exit M ∈ [Hook.exit (-c), Hook.enter s1.sched_boost_val] ↔
            M = -c := by simp
        have hreq : requested s.sched_boosts (-c) = true := by
          simp [requested, hrc]
        refine ⟨?_, ?_, fun h => absurd h hpos, ?_, fun h => absurd h h0⟩
        · intro _ h1 h2
          rw [hmem]
          rcases hcase with ⟨h3, -⟩ | ⟨h3, -, -⟩
          · exact h1.trans h3
          · exact absurd (h1.trans h3.symm) h2
        · intro h
          have hM := hmem.1 h
          subst hM
          refine ⟨?_, Or.inr hreq⟩
          rcases hcase with ⟨-, h3⟩ | ⟨h3, h4, h5⟩ <;> omega
        · intro _
          rw [hmem]
          constructor
          · intro h
            subst h
            exact ⟨rfl, hrc⟩
          · intro h
            exact h.1

/-- Witness of C14 (amended): the release of conservative while full throttle
is effective; `exit(2)` is invoked for a mode that was requested but not
effective. -/
theorem C14_exit_hook_witness :
    sched_set_boost (-2) ⟨[0, 1, 1, 0], 1, 1⟩ =
      some (0, ⟨[0, 1, 0, 0], 1, 1⟩, [Hook.exit 2, Hook.enter 1]) ∧
    ∃ s1 tr, sched_set_boost (-2) ⟨[0, 1, 1, 0], 1, 1⟩ = some (0, s1, tr) ∧
      ((2 : Int) = 1 → (2 : Int) ≠ s1.sched_boost_val → Hook.exit 2 ∈ tr) ∧
      (Hook.exit 2 ∈ tr → (2 : Int) ≠ s1.sched_boost_val ∧
        ((2 : Int) = 1 ∨ requested [0, 1, 1, 0] 2 = true)) ∧
      (Hook.exit 2 ∈ tr ↔ ((2 : Int) = - -2 ∧ tbl_get [0, 1, 1, 0] 2 = some 1)) := by
  obtain ⟨⟨s1, tr, h1, h2, h3, -, h5, -⟩, -⟩ :=
    C14_exit_hook ⟨[0, 1, 1, 0], 1, 1⟩ ⟨[1, 2], _, rfl⟩ (-2) (by decide) 2
  exact ⟨by decide, s1, tr, h1, h2 (fun h => absurd h (by decide)), h3, h5 (by decide)⟩

/-- C15, counterexample (raw request against effective mode as stated): after
`request(FULL_THROTTLE)` the successful `request(CONSERVATIVE)`, command 2,
leaves `sysctl_sched_boost = 1`, the effective mode, not the raw command 2. -/
theorem C15_counterexample :
    run [1] init = some (⟨[0, 1, 0, 0], 1, 1⟩, [Hook.exit 0, Hook.enter 1]) ∧
    sched_set_boost 2 ⟨[0, 1, 0, 0], 1, 1⟩ = some (0, ⟨[0, 1, 1, 0], 1, 1⟩, []) ∧
    ¬ (∀ s, Reachable s → ∀ c s1 tr, sched_set_boost c s = some (0, s1, tr) →
        s1.sysctl_sched_boost = c) := by
  refine ⟨by decide, by decide, ?_⟩
  intro h
  have h1 := h ⟨[0, 1, 0, 0], 1, 1⟩ ⟨[1], _, rfl⟩ 2 ⟨[0, 1, 1, 0], 1, 1⟩ [] (by decide)
  revert h1
  decide

/-- C15, amended (raw request against effective mode): in every reachable
state, whatever value `w` the write path has left in `sysctl_sched_boost`, a
valid command `c` succeeds and leaves `sysctl_sched_boost` equal to the
published effective mode `sched_boost_val`: the raw command is overwritten, and
the value read back is `c` only when `c` is the effective mode after the
call. -/
theorem C15_sysctl_is_effective (s : State) (hs : Reachable s) (w c : Int)
    (hc : verify_boost_params c = true) :
    ∃ s1 tr, sched_set_boost c ⟨s.sched_boosts, s.sched_boost_val, w⟩ = some (0, s1, tr) ∧
      s1.sysctl_sched_boost = s1.sched_boost_val ∧
      (s1.sysctl_sched_boost = c ↔ s1.sched_boost_val = c) := by
  obtain ⟨a, b, c3, ha, hb, hc3, rfl⟩ := reachable_inv s hs
  obtain ⟨hp0, hp3⟩ := pick_range a b c3
  have key : ∃ s1 tr, sched_set_boost c ⟨[0, a, b, c3], pick a b c3, w⟩ = some (0, s1, tr) ∧
      s1.sysctl_sched_boost = s1.sched_boost_val := by
    rcases verify_cases c hc with rfl | rfl | rfl | rfl | rfl | rfl | rfl
    · refine ⟨_, _, set_boost_release3 _ _ _ _ _ _, ?_⟩
      split_ifs <;> rfl
    · refine ⟨_, _, set_boost_release2 _ _ _ _ _ _, ?_⟩
      split_ifs <;> rfl
    · refine ⟨_, _, set_boost_release1 _ _ _ _ _ _, ?_⟩
      split_ifs <;> rfl
    · exact ⟨_, _, set_boost_reset_gen _ _ _ _ _ _, rfl⟩
    · exact ⟨_, _, set_boost_request1_raw _ _ _ _ _ _ hp0 hp3, rfl⟩
    · exact ⟨_, _, set_boost_request2_raw _ _ _ _ _ _ hp0 hp3, rfl⟩
    · exact ⟨_, _, set_boost_request3_raw _ _ _ _ _ _ hp0 hp3, rfl⟩
  obtain ⟨s1, tr, h1, h2⟩ := key
  exact ⟨s1, tr, h1, h2, by rw [h2]⟩

/-- Witness of C15 (amended): the write path has stored the raw command 2 in
`sysctl_sched_boost` before the dispatch of `request(CONSERVATIVE)` with full
throttle effective; afterwards both values are 1. -/
theorem C15_sysctl_is_effective_witness :
    sched_set_boost 2 ⟨[0, 1, 0, 0], 1, 2⟩ = some (0, ⟨[0, 1, 1, 0], 1, 1⟩, []) ∧
    ∃ s1 tr, sched_set_boost 2 ⟨[0, 1, 0, 0], 1, 2⟩ = some (0, s1, tr) ∧
      s1.sysctl_sched_boost = s1.sched_boost_val ∧
      (s1.sysctl_sched_boost = 2 ↔ s1.sched_boost_val = 2) :=
  ⟨by decide, C15_sysctl_is_effective ⟨[0, 1, 0, 0], 1, 1⟩ ⟨[1], _, rfl⟩ 2 2 (by decide)⟩

/-- C17, counterexample (round trip as stated): after `INT_MAX` requests of the
full throttle mode, one more request wraps its refcount to `INT_MIN` and the
release that follows is a no-op: the two calls do not give the state back. -/
theorem C17_counterexample :
    run (List.replicate 2147483647 1) init =
      some (⟨[0, 2147483647, 0, 0], 1, 1⟩, [Hook.exit 0, Hook.enter 1]) ∧
    sched_set_boost 1 ⟨[0, 2147483647, 0, 0], 1, 1⟩ =
      some (0, ⟨[0, -2147483648, 0, 0], 0, 0⟩, []) ∧
    sched_set_boost (-1) ⟨[0, -2147483648, 0, 0], 0, 0⟩ =
      some (0, ⟨[0, -2147483648, 0, 0], 0, 0⟩, []) ∧
    ¬ (∀ s, Reachable s → ∀ M, FULL_THROTTLE_BOOST ≤ M → M ≤ RESTRAINED_BOOST →
        ∀ r1 s1 t1 r2 s2 t2, sched_set_boost M s = some (r1, s1, t1) →
          sched_set_boost (-M) s1 = some (r2, s2, t2) → s2 = s) := by
  have h1 : sched_set_boost 1 ⟨[0, 2147483647, 0, 0], 1, 1⟩ =
      some (0, ⟨[0, -2147483648, 0, 0], 0, 0⟩, []) := by decide
  have h2 : sched_set_boost (-1) ⟨[0, -2147483648, 0, 0], 0, 0⟩ =
      some (0, ⟨[0, -2147483648, 0, 0], 0, 0⟩, []) := by decide
  refine ⟨run_int_max, h1, h2, ?_⟩
  intro h
  have h3 := h _ reachable_int_max 1 (by decide) (by decide) _ _ _ _ _ _ h1 h2
  revert h3
  decide

/-- C17, amended (request and release round trip): for every state `s` reached
by a sequence of commands from the initial state and every elevated mode `M`
whose refcount in `s` is at least 0 and below `INT_MAX` (as it is after every
sequence of fewer than `2^31 - 1` commands), the request of `M` followed by the
release of `M` succeeds and ends in the state `s` again (same refcounts, same
effective mode), and the hooks of the two calls take the outside state that
matches the effective mode of `s` (energy-aware flag and `boost_override`) back
to itself; after a sequence of fewer than `2^31` commands that outside state is
the one the hooks of the run have produced. -/
theorem C17_request_release_round_trip (cmds : List Int) (s : State) (tr : List Hook)
    (hrun : run cmds init = some (s, tr)) (M : Int)
    (h1 : FULL_THROTTLE_BOOST ≤ M) (h3 : M ≤ RESTRAINED_BOOST) :
    ∃ rc, tbl_get s.sched_boosts M = some rc ∧
      (cmds.length + 1 < 2147483648 → 0 ≤ rc ∧ rc < INT_MAX) ∧
      (0 ≤ rc → rc < INT_MAX →
        ∃ s1 t1 s2 t2, sched_set_boost M s = some (0, s1, t1) ∧
          sched_set_boost (-M) s1 = some (0, s2, t2) ∧ s2 = s ∧
          run_hooks (t1 ++ t2) (ext_of s.sched_boost_val) =
            some (ext_of s.sched_boost_val)) ∧
      (cmds.length < 2147483648 → run_hooks tr ext_init = some (ext_of s.sched_boost_val)) := by
  have hinv : Inv s := reachable_inv s ⟨cmds, tr, hrun⟩
  simp only [FULL_THROTTLE_BOOST, RESTRAINED_BOOST] at h1 h3
  have hM : M = 1 ∨ M = 2 ∨ M = 3 := by omega
  have hget : ∃ rc, tbl_get s.sched_boosts M = some rc := by
    obtain ⟨a, b, c, -, -, -, rfl⟩ := hinv
    rcases hM with rfl | rfl | rfl <;> simp [tbl_get]
  obtain ⟨rc, hget⟩ := hget
  refine ⟨rc, hget, ?_, ?_, ?_⟩
  · intro hlen
    obtain ⟨s2, tr2, hrun2, hB, -⟩ := ext_run cmds (by omega)
    rw [hrun] at hrun2
    simp only [Option.some.injEq, Prod.mk.injEq] at hrun2
    obtain ⟨rfl, -⟩ := hrun2
    obtain ⟨a, b, c, ha, hb, hc, rfl⟩ := hB
    have h4 := tbl_get_four _ _ _ _ _ _ hget
    simp only [INT_MAX]
    omega
  · intro h0 hmax
    obtain ⟨s1, t1, t2, hs1, hinv1, hs2⟩ := request_release_state s hinv M h1 h3 rc hget h0 hmax
    refine ⟨s1, t1, s, t2, hs1, hs2, rfl, ?_⟩
    have hne : tbl_get s.sched_boosts M ≠ some INT_MAX := by
      intro h
      rw [hget] at h
      simp only [Option.some.injEq] at h
      rw [h] at hmax
      exact lt_irrefl _ hmax
    rw [run_hooks_append, ext_step s hinv M 0 s1 t1 (fun _ => hne) hs1]
    exact ext_step s1 hinv1 (-M) 0 s t2 (fun h => absurd h (by omega)) hs2
  · intro hlen
    obtain ⟨s2, tr2, hrun2, -, hext⟩ := ext_run cmds hlen
    rw [hrun] at hrun2
    simp only [Option.some.injEq, Prod.mk.injEq] at hrun2
    obtain ⟨rfl, rfl⟩ := hrun2
    exact hext

/-- Witness of C17 (amended): with the restrained mode effective, the request
and release of the conservative mode run `exit(3)`, `enter(2)`, `exit(2)`,
`enter(3)` and restore the state and `boost_override = 30`. -/
theorem C17_request_release_round_trip_witness :
    run [3] init = some (⟨[0, 0, 0, 1], 3, 3⟩, [Hook.exit 0, Hook.enter 3]) ∧
    run_hooks [Hook.exit 0, Hook.enter 3] ext_init = some ⟨false, some 30⟩ ∧
    ext_of 3 = ⟨false, some 30⟩ ∧
    sched_set_boost 2 ⟨[0, 0, 0, 1], 3, 3⟩ =
      some (0, ⟨[0, 0, 1, 1], 2, 2⟩, [Hook.exit 3, Hook.enter 2]) ∧
    sched_set_boost (-2) ⟨[0, 0, 1, 1], 2, 2⟩ =
      some (0, ⟨[0, 0, 0, 1], 3, 3⟩, [Hook.exit 2, Hook.enter 3]) ∧
    ∃ s1 t1 s2 t2, sched_set_boost 2 ⟨[0, 0, 0, 1], 3, 3⟩ = some (0, s1, t1) ∧
      sched_set_boost (-2) s1 = some (0, s2, t2) ∧ s2 = ⟨[0, 0, 0, 1], 3, 3⟩ ∧
      run_hooks (t1 ++ t2) (ext_of 3) = some (ext_of 3) := by
  obtain ⟨rc, -, hshort, hrt, -⟩ :=
    C17_request_release_round_trip [3] ⟨[0, 0, 0, 1], 3, 3⟩ [Hook.exit 0, Hook.enter 3]
      (by decide) 2 (by decide) (by decide)
  have hb := hshort (by decide)
  exact ⟨by decide, by decide, by decide, by decide, by decide, hrt hb.1 hb.2⟩

/-- C18, counterexample (priority monotonicity as stated): after `INT_MAX`
requests of the full throttle mode one more request of it takes the effective
mode from full throttle down to the baseline. -/
theorem C18_counterexample :
    run (List.replicate 2147483647 1) init =
      some (⟨[0, 2147483647, 0, 0], 1, 1⟩, [Hook.exit 0, Hook.enter 1]) ∧
    sched_set_boost 1 ⟨[0, 2147483647, 0, 0], 1, 1⟩ =
      some (0, ⟨[0, -2147483648, 0, 0], 0, 0⟩, []) ∧
    priority 1 = 3 ∧ priority 0 = 0 ∧
    ¬ (∀ s, Reachable s → ∀ M, FULL_THROTTLE_BOOST ≤ M → M ≤ RESTRAINED_BOOST →
        ∀ r s1 t1, sched_set_boost M s = some (r, s1, t1) →
          priority s.sched_boost_val ≤ priority s1.sched_boost_val) := by
  have h1 : sched_set_boost 1 ⟨[0, 2147483647, 0, 0], 1, 1⟩ =
      some (0, ⟨[0, -2147483648, 0, 0], 0, 0⟩, []) := by decide
  refine ⟨run_int_max, h1, by decide, by decide, ?_⟩
  intro h
  have h3 := h _ reachable_int_max 1 (by decide) (by decide) _ _ _ h1
  revert h3
  decide

/-- C18, amended (priority monotonicity): with the modes ranked baseline below
restrained below conservative below full throttle, in every reachable state and
for every elevated mode `M`, a request of `M` succeeds and, when the refcount of
`M` is not `INT_MAX`, does not lower the rank of the effective mode, and if it
changes the effective mode the new one is `M`; a release of `M` succeeds, does
not raise the rank of the effective mode, and changes the effective mode only if
`M` was the effective mode. After fewer than `2^31 - 1` commands no refcount is
`INT_MAX`. -/
theorem C18_priority_monotone (s : State) (hs : Reachable s) (M : Int)
    (h1 : FULL_THROTTLE_BOOST ≤ M) (h3 : M ≤ RESTRAINED_BOOST) :
    (∃ s1 t1 s2 t2, sched_set_boost M s = some (0, s1, t1) ∧
      (tbl_get s.sched_boosts M ≠ some INT_MAX →
        priority s.sched_boost_val ≤ priority s1.sched_boost_val ∧
        (s1.sched_boost_val ≠ s.sched_boost_val → s1.sched_boost_val = M)) ∧
      sched_set_boost (-M) s = some (0, s2, t2) ∧
      priority s2.sched_boost_val ≤ priority s.sched_boost_val ∧
      (s2.sched_boost_val ≠ s.sched_boost_val → s.sched_boost_val = M)) ∧
    (∀ cmds t0, run cmds init = some (s, t0) → cmds.length + 1 < 2147483648 →
      ∀ i, tbl_get s.sched_boosts i ≠ some INT_MAX) := by
  refine ⟨?_, fun cmds t0 hrun hlen i => short_run_not_max cmds s t0 hlen hrun i⟩
  have hinv := reachable_inv s hs
  simp only [FULL_THROTTLE_BOOST, RESTRAINED_BOOST] at h1 h3
  have hv := inv_val_range s hinv
  have hvM : verify_boost_params M = true := by
    simp [verify_boost_params, RESTRAINED_BOOST_DISABLE, RESTRAINED_BOOST]; omega
  have hvN : verify_boost_params (-M) = true := by
    simp [verify_boost_params, RESTRAINED_BOOST_DISABLE, RESTRAINED_BOOST]; omega
  obtain ⟨s1, t1, hs1, hinv1⟩ := valid_step s hinv M hvM
  obtain ⟨s2, t2, hs2, hinv2⟩ := valid_step s hinv (-M) hvN
  have hv2 := inv_val_range s2 hinv2
  refine ⟨s1, t1, s2, t2, hs1, ?_, hs2, ?_, ?_⟩
  · intro hm
    refine ⟨?_, ?_⟩
    · rcases request_shape s hinv M h1 h3 hm 0 s1 t1 hs1 with ⟨-, h⟩ | ⟨-, h, hlt⟩
      · rw [h]
      · rw [h]
        exact priority_le _ _ hv ⟨h1, h3⟩ hlt
    · intro hne
      rcases request_shape s hinv M h1 h3 hm 0 s1 t1 hs1 with ⟨-, h⟩ | ⟨-, h, -⟩
      · exact absurd h hne
      · exact h
  · rcases release_shape s hinv M h1 h3 0 s2 t2 hs2 with ⟨-, h, -⟩ | ⟨-, -, ⟨h, hlt⟩ | ⟨h, -, -⟩⟩
    · rw [h]
    · rw [h]
      exact priority_le _ _ hv2 ⟨h1, h3⟩ hlt
    · rw [h]
  · intro hne
    rcases release_shape s hinv M h1 h3 0 s2 t2 hs2 with ⟨-, h, -⟩ | ⟨-, -, ⟨h, -⟩ | ⟨h, -, -⟩⟩
    · exact absurd h hne
    · exact h
    · exact absurd h hne

/-- Witness of C18 (amended): with conservative effective and restrained
requested, the request of full throttle raises the effective mode to full
throttle, and the release of conservative lowers it to restrained. -/
theorem C18_priority_monotone_witness :
    run [2, 3] init = some (⟨[0, 0, 1, 1], 2, 2⟩, [Hook.exit 0, Hook.enter 2]) ∧
    sched_set_boost 1 ⟨[0, 0, 1, 1], 2, 2⟩ =
      some (0, ⟨[0, 1, 1, 1], 1, 1⟩, [Hook.exit 2, Hook.enter 1]) ∧
    sched_set_boost (-2) ⟨[0, 0, 1, 1], 2, 2⟩ =
      some (0, ⟨[0, 0, 0, 1], 3, 3⟩, [Hook.exit 2, Hook.enter 3]) ∧
    (∃ s1 t1 s2 t2, sched_set_boost 1 ⟨[0, 0, 1, 1], 2, 2⟩ = some (0, s1, t1) ∧
      (priority 2 ≤ priority s1.sched_boost_val ∧
        (s1.sched_boost_val ≠ 2 → s1.sched_boost_val = 1)) ∧
      sched_set_boost (-1) ⟨[0, 0, 1, 1], 2, 2⟩ = some (0, s2, t2) ∧
      priority s2.sched_boost_val ≤ priority 2 ∧
      (s2.sched_boost_val ≠ 2 → (2 : Int) = 1)) ∧
    (∃ s1 t1 s2 t2, sched_set_boost 2 ⟨[0, 0, 1, 1], 2, 2⟩ = some (0, s1, t1) ∧
      (priority 2 ≤ priority s1.sched_boost_val ∧
        (s1.sched_boost_val ≠ 2 → s1.sched_boost_val = 2)) ∧
      sched_set_boost (-2) ⟨[0, 0, 1, 1], 2, 2⟩ = some (0, s2, t2) ∧
      priority s2.sched_boost_val ≤ priority 2 ∧
      (s2.sched_boost_val ≠ 2 → (2 : Int) = 2)) := by
  obtain ⟨⟨a1, b1, c1, d1, e1, f1, g1, h1, i1⟩, -⟩ :=
    C18_priority_monotone ⟨[0, 0, 1, 1], 2, 2⟩ ⟨[2, 3], _, rfl⟩ 1 (by decide) (by decide)
  obtain ⟨⟨a2, b2, c2, d2, e2, f2, g2, h2, i2⟩, -⟩ :=
    C18_priority_monotone ⟨[0, 0, 1, 1], 2, 2⟩ ⟨[2, 3], _, rfl⟩ 2 (by decide) (by decide)
  exact ⟨by decide, by decide, by decide,
    ⟨a1, b1, c1, d1, e1, f1 (by decide), g1, h1, i1⟩,
    ⟨a2, b2, c2, d2, e2, f2 (by decide), g2, h2, i2⟩⟩

/-- C19 (table index safety): after every sequence of commands from the initial
state the run completes, so that no access to `sched_boosts[]` was out of
bounds; the table still has 4 entries and the refcount of the baseline entry is
still 0; `sched_boost_val`, the next `prev_boost`, lies in `0 .. 3`; every hook
call of the run went through an index in `0 .. 3`; and for every valid next
command `type` the index whose refcount it changes (`type` for a request,
`-type` for a release) lies in `1 .. 3`, the call completes, and the scan result
`next_boost` it publishes lies in `0 .. 3`. -/
theorem C19_table_index_safety (cmds : List Int) :
    ∃ s tr, run cmds init = some (s, tr) ∧
      s.sched_boosts.length = 4 ∧ tbl_get s.sched_boosts NO_BOOST = some 0 ∧
      (0 ≤ s.sched_boost_val ∧ s.sched_boost_val ≤ 3) ∧
      (∀ k ∈ tr, 0 ≤ hook_index k ∧ hook_index k ≤ 3) ∧
      ∀ type, verify_boost_params type = true →
        (0 < type → FULL_THROTTLE_BOOST ≤ type ∧ type ≤ RESTRAINED_BOOST) ∧
        (type < 0 → FULL_THROTTLE_BOOST ≤ -type ∧ -type ≤ RESTRAINED_BOOST) ∧
        ∃ s1 t1 next_boost, sched_set_boost type s = some (0, s1, t1) ∧
          sched_effective_boost s1.sched_boosts = some next_boost ∧
          s1.sched_boost_val = next_boost ∧ 0 ≤ next_boost ∧ next_boost ≤ 3 ∧
          tbl_get s1.sched_boosts NO_BOOST = some 0 := by
  obtain ⟨s, tr, hrun, hinv, hidx⟩ :=
    run_invariant (fun _ _ tr => ∀ k ∈ tr, 0 ≤ hook_index k ∧ hook_index k ≤ 3)
      (fun k hk => by cases hk)
      (fun _ s tr c r s1 t1 hinv hP hstep k hk => by
        rcases List.mem_append.1 hk with h | h
        · exact hP k h
        · exact step_hooks_index s hinv c r s1 t1 hstep k h) cmds
  have hv := inv_val_range s hinv
  refine ⟨s, tr, hrun, ?_, ?_, hv, hidx, ?_⟩
  · obtain ⟨a, b, c, -, -, -, rfl⟩ := hinv
    rfl
  · obtain ⟨a, b, c, -, -, -, rfl⟩ := hinv
    rfl
  · intro type hty
    have h7 := verify_cases type hty
    refine ⟨fun h => ?_, fun h => ?_, ?_⟩
    · simp only [FULL_THROTTLE_BOOST, RESTRAINED_BOOST]; omega
    · simp only [FULL_THROTTLE_BOOST, RESTRAINED_BOOST]; omega
    · obtain ⟨s1, t1, hs1, hinv1⟩ := valid_step s hinv type hty
      have hv1 := inv_val_range s1 hinv1
      obtain ⟨a, b, c, -, -, -, rfl⟩ := hinv1
      exact ⟨_, t1, pick a b c, hs1, eff_four 0 a b c, rfl, hv1.1, hv1.2, rfl⟩

/-- Witness of C19: after a run that holds an invalid command, the request of
the restrained mode completes and baseline's refcount is still 0. -/
theorem C19_table_index_safety_witness :
    run [2, 7, -1, 1] init = some (⟨[0, 1, 1, 0], 1, 1⟩,
      [Hook.exit 0, Hook.enter 2, Hook.exit 2, Hook.enter 1]) ∧
    sched_set_boost 3 ⟨[0, 1, 1, 0], 1, 1⟩ = some (0, ⟨[0, 1, 1, 1], 1, 1⟩, []) ∧
    ∃ s tr, run [2, 7, -1, 1] init = some (s, tr) ∧
      s.sched_boosts.length = 4 ∧ tbl_get s.sched_boosts NO_BOOST = some 0 ∧
      (0 ≤ s.sched_boost_val ∧ s.sched_boost_val ≤ 3) ∧
      (∀ k ∈ tr, 0 ≤ hook_index k ∧ hook_index k ≤ 3) ∧
      ∀ type, verify_boost_params type = true →
        (0 < type → FULL_THROTTLE_BOOST ≤ type ∧ type ≤ RESTRAINED_BOOST) ∧
        (type < 0 → FULL_THROTTLE_BOOST ≤ -type ∧ -type ≤ RESTRAINED_BOOST) ∧
        ∃ s1 t1 next_boost, sched_set_boost type s = some (0, s1, t1) ∧
          sched_effective_boost s1.sched_boosts = some next_boost ∧
          s1.sched_boost_val = next_boost ∧ 0 ≤ next_boost ∧ next_boost ≤ 3 ∧
          tbl_get s1.sched_boosts NO_BOOST = some 0 :=
  ⟨by decide, by decide, C19_table_index_safety [2, 7, -1, 1]⟩

end BoostPelt
